import Mathlib

set_option maxRecDepth 40000

/-!
Verification of the secp256k1 / BIP-340 Schnorr signature engine of this
repository: field and curve arithmetic, the x-only lift, the tagged
challenge hash, standard verification, and the adaptor-signature
extension (verification against a tweak point and secret extraction).

The Go source works on `math/big` integers.  We embed byte buffers as
`List Nat` (one element per byte) and big integers as `Nat` (or `Int`
where the source can produce a negative value, namely in `extract`).
`big.Int.Mod` is Euclidean (non-negative) and is embedded as `%` on
`Nat`, or via `intMod` when the dividend may be negative.
-/

namespace Schnorr

/-- Field modulus p of secp256k1, as defined by the byte literal in the source. -/
def P : Nat := 0xFFFFFFFFFFFFFFFFFFFFFFFFFFFFFFFFFFFFFFFFFFFFFFFFFFFFFFFEFFFFFC2F

/-- Curve order n of secp256k1, as defined by the byte literal in the source. -/
def N : Nat := 0xFFFFFFFFFFFFFFFFFFFFFFFFFFFFFFFEBAAEDCE6AF48A03BBFD25E8CD0364141

/-- Curve parameter b = 7. -/
def B : Nat := 7

/-- Generator x-coordinate. -/
def GX : Nat := 0x79BE667EF9DCBBAC55A06295CE870B07029BFCDB2DCE28D959F2815B16F81798

/-- Generator y-coordinate. -/
def GY : Nat := 0x483ADA7726A3C4655DA4FBFC0E1108A8FD17B448A68554199C47D08FFB10D4B8

/-- Exponent (p+1)/4 used for square roots in F_p (`SQRT_EXP` in the source,
computed there as `(P+1) >> 2`). -/
def SQRT_EXP : Nat := (P + 1) / 4

/-- Affine point representation; the point at infinity is represented by the
sentinel coordinate pair (0, 0), exactly as in the source. -/
structure Affine where
  X : Nat
  Y : Nat
deriving DecidableEq, Repr

/-- Big-endian interpretation of a byte sequence, the embedding of
`big.Int.SetBytes`. -/
def bytesToNat (bs : List Nat) : Nat :=
  bs.foldl (fun acc b => acc * 256 + b) 0

/-- Fixed-width big-endian byte encoding of a natural number
(the embedding of `big.Int.FillBytes` on a `len`-byte buffer, and of the
zero-padded `copy` idiom used by the command handlers). -/
def beBytes : Nat → Nat → List Nat
  | 0, _ => []
  | k + 1, v => beBytes k (v / 256) ++ [v % 256]

/-- Euclidean remainder of an integer by a natural modulus, returned as a
natural number; embeds `big.Int.Mod`, whose result is always non-negative. -/
def intMod (a : Int) (m : Nat) : Nat :=
  (a % (m : Int)).toNat

/-- Difference modulo `m` of two naturals computed through the integers; embeds
the `Sub` followed by `Mod` idiom of the source. -/
def subMod (a b m : Nat) : Nat :=
  intMod ((a : Int) - (b : Int)) m

/-- Extended Euclidean algorithm with explicit fuel.  State `(r0, r1, s0, s1)`
maintains `s0 * g ≡ r0` and `s1 * g ≡ r1` modulo `m`; the fuel only bounds the
iteration count and is chosen large enough at every call site. -/
def xgcdAux : Nat → Nat → Nat → Int → Int → Nat × Int
  | 0, r0, _, s0, _ => (r0, s0)
  | fuel + 1, r0, r1, s0, s1 =>
    if r1 = 0 then (r0, s0)
    else xgcdAux fuel r1 (r0 % r1) s1 (s0 - (r0 / r1 : Nat) * s1)

/-- Modular inverse, the embedding of `big.Int.ModInverse(g, m)`.  When
`gcd(g, m) = 1` it returns the unique inverse in `[0, m)`.  (When the inputs
are not coprime `ModInverse` in Go returns `nil` and any use of the result
faults; this total model returns the Bezout coefficient reduced mod `m`
in that case.  All call sites in the source use a modulus that is prime.) -/
def modInverse (g m : Nat) : Nat :=
  intMod (xgcdAux (g + m + 2) g m 1 0).2 m

/-- Modular exponentiation with explicit fuel (binary square-and-multiply);
embeds `big.Int.Exp(b, e, m)`, which the source uses once, with the fixed
exponent `SQRT_EXP < 2^255`, so any fuel of at least 255 is faithful. -/
def powMod : Nat → Nat → Nat → Nat → Nat
  | 0, _, _, m => 1 % m
  | f + 1, b, e, m =>
    if e = 0 then 1 % m
    else if e % 2 = 1 then powMod f (b * b % m) (e / 2) m * b % m
    else powMod f (b * b % m) (e / 2) m

/-- Test for the point-at-infinity sentinel. -/
def isInfinity (p : Affine) : Bool :=
  p.X == 0 && p.Y == 0

/-- The on-curve predicate: true for Infinity, otherwise y² ≡ x³ + 7 (mod p). -/
def isOnCurve (p : Affine) : Bool :=
  if isInfinity p then true
  else
    let yy := p.Y * p.Y % P
    let xx := p.X * p.X % P
    let xxx := xx * p.X % P
    let rhs := (xxx + B) % P
    yy == rhs

/-- Point doubling.  Mirrors the source: infinity and y = 0 map to the
infinity sentinel; otherwise the tangent-slope formulas are applied with all
intermediate values reduced mod p exactly where the source reduces them. -/
def double (p : Affine) : Affine :=
  if isInfinity p || p.Y == 0 then ⟨0, 0⟩
  else
    let x2 := p.X * p.X % P
    let s0 := 3 * x2 % P
    let twoY := 2 * p.Y % P
    let inv := modInverse twoY P
    let s := s0 * inv % P
    let s2 := s * s % P
    let xr := subMod s2 (2 * p.X) P
    let yr := intMod ((((p.X : Int) - xr) * s) - p.Y) P
    ⟨xr, yr⟩

/-- Point addition.  Mirrors the source: the infinity sentinel is an identity
on either side; equal x-coordinates give infinity when the points are inverses
of each other (or y₁ = 0) and fall through to doubling otherwise; the general
case applies the chord-slope formulas. -/
def add (p1 p2 : Affine) : Affine :=
  if isInfinity p1 then p2
  else if isInfinity p2 then p1
  else if p1.X == p2.X then
    let sum := (p1.Y + p2.Y) % P
    if p1.Y == 0 || sum == 0 then ⟨0, 0⟩
    else double p1
  else
    let dx := subMod p2.X p1.X P
    let dy := subMod p2.Y p1.Y P
    let inv := modInverse dx P
    let s := dy * inv % P
    let s2 := s * s % P
    let xr := subMod s2 (p1.X + p2.X) P
    let yr := intMod ((((p1.X : Int) - xr) * s) - p1.Y) P
    ⟨xr, yr⟩

/-- Double-and-add loop of `mul`, with the loop state passed explicitly.
The source loop reads `result`, `addend` and the scalar `k`, and mutates `k`
in place by right shifts until it reaches 0; the second component of the
returned pair is the value the caller-visible scalar object holds after the
loop exits. -/
def mulSt (result addend : Affine) (k : Nat) : Affine × Nat :=
  if h : 0 < k then
    mulSt (if k % 2 = 1 then add result addend else result) (double addend) (k / 2)
  else (result, k)
termination_by k
decreasing_by exact Nat.div_lt_self h (by omega)

/-- Scalar multiplication by double-and-add, starting from the infinity
sentinel, as in the source. -/
def mul (p : Affine) (k : Nat) : Affine :=
  (mulSt ⟨0, 0⟩ p k).1

/-- Generator point G. -/
def G : Affine := ⟨GX, GY⟩

/-- Lift of an x-only coordinate to the even-Y curve point, the embedding of
`liftXEvenY`.  `none` embeds the `ErrLiftXFailed` error return. -/
def liftXEvenY (x : Nat) : Option Affine :=
  if P ≤ x then none
  else
    let c := (x * x * x + B) % P
    let y := powMod 300 c SQRT_EXP P
    if y * y % P ≠ c then none
    else some ⟨x, if y % 2 = 1 then P - y else y⟩

/-- Adaptor-secret extraction, the embedding of `extract`.  The result is an
integer because the second branch of the final subtraction can go negative
when the inputs are out of scalar range. -/
def extract (sig adaptorSig : List Nat) : Int :=
  if sig.length = 64 ∧ adaptorSig.length = 64 then
    let r1 := bytesToNat (sig.take 32)
    let s := bytesToNat (sig.drop 32)
    let r2 := bytesToNat (adaptorSig.take 32)
    let sPrime := bytesToNat (adaptorSig.drop 32)
    if r1 ≠ r2 then 0
    else if sPrime ≤ s then (s : Int) - (sPrime : Int)
    else (N : Int) - ((sPrime : Int) - (s : Int))
  else 0

/-- Result buffer produced by the `handleExtract` command: the magnitude of
the extracted secret (`big.Int.Bytes` returns the absolute value), zero-padded
on the left to 32 bytes. -/
def handleExtractResult (sig adaptorSig : List Nat) : List Nat :=
  beBytes 32 (extract sig adaptorSig).natAbs

/-! SHA-256, embedded from the standard the `crypto/sha256` package
implements (FIPS 180-4), working on byte lists with 32-bit words as
naturals reduced mod 2^32. -/

/-- Right rotation of a 32-bit word. -/
def rotr (n x : Nat) : Nat :=
  ((x >>> n) ||| (x <<< (32 - n))) % 4294967296

/-- Choice function of the SHA-256 round. -/
def shaCh (x y z : Nat) : Nat :=
  (x &&& y) ^^^ ((x ^^^ 0xFFFFFFFF) &&& z)

/-- Majority function of the SHA-256 round. -/
def shaMaj (x y z : Nat) : Nat :=
  (x &&& y) ^^^ (x &&& z) ^^^ (y &&& z)

/-- Upper-case sigma-0 of SHA-256. -/
def bigSigma0 (x : Nat) : Nat := rotr 2 x ^^^ rotr 13 x ^^^ rotr 22 x

/-- Upper-case sigma-1 of SHA-256. -/
def bigSigma1 (x : Nat) : Nat := rotr 6 x ^^^ rotr 11 x ^^^ rotr 25 x

/-- Lower-case sigma-0 of SHA-256. -/
def smallSigma0 (x : Nat) : Nat := rotr 7 x ^^^ rotr 18 x ^^^ (x >>> 3)

/-- Lower-case sigma-1 of SHA-256. -/
def smallSigma1 (x : Nat) : Nat := rotr 17 x ^^^ rotr 19 x ^^^ (x >>> 10)

/-- Round constants of SHA-256 (FIPS 180-4, written in decimal). -/
def shaK : List Nat :=
  [1116352408, 1899447441, 3049323471, 3921009573, 961987163, 1508970993,
   2453635748, 2870763221, 3624381080, 310598401, 607225278, 1426881987,
   1925078388, 2162078206, 2614888103, 3248222580, 3835390401, 4022224774,
   264347078, 604807628, 770255983, 1249150122, 1555081692, 1996064986,
   2554220882, 2821834349, 2952996808, 3210313671, 3336571891, 3584528711,
   113926993, 338241895, 666307205, 773529912, 1294757372, 1396182291,
   1695183700, 1986661051, 2177026350, 2456956037, 2730485921, 2820302411,
   3259730800, 3345764771, 3516065817, 3600352804, 4094571909, 275423344,
   430227734, 506948616, 659060556, 883997877, 958139571, 1322822218,
   1537002063, 1747873779, 1955562222, 2024104815, 2227730452, 2361852424,
   2428436474, 2756734187, 3204031479, 3329325298]

/-- Initial hash state of SHA-256 (FIPS 180-4, written in decimal). -/
def shaInitH : List Nat :=
  [1779033703, 3144134277, 1013904242, 2773480762,
   1359893119, 2600822924, 528734635, 1541459225]

/-- Grouping of a byte list into big-endian 32-bit words. -/
def wordsOfBytes : List Nat → List Nat
  | b0 :: b1 :: b2 :: b3 :: rest =>
    (((b0 * 256 + b1) * 256 + b2) * 256 + b3) :: wordsOfBytes rest
  | _ => []

/-- Message-schedule extension: appends `t` further words to the schedule. -/
def extendSchedule : Nat → List Nat → List Nat
  | 0, w => w
  | t + 1, w =>
    let L := w.length
    let next := (smallSigma1 (w.getD (L - 2) 0) + w.getD (L - 7) 0 +
      smallSigma0 (w.getD (L - 15) 0) + w.getD (L - 16) 0) % 4294967296
    extendSchedule t (w ++ [next])

/-- Working variables of the SHA-256 compression function. -/
structure ShaState where
  a : Nat
  b : Nat
  c : Nat
  d : Nat
  e : Nat
  f : Nat
  g : Nat
  hh : Nat
deriving Repr

/-- One SHA-256 round: `kw` holds the round constant and schedule word. -/
def shaRound (s : ShaState) (kw : Nat × Nat) : ShaState :=
  let t1 := (s.hh + bigSigma1 s.e + shaCh s.e s.f s.g + kw.1 + kw.2) % 4294967296
  let t2 := (bigSigma0 s.a + shaMaj s.a s.b s.c) % 4294967296
  ⟨(t1 + t2) % 4294967296, s.a, s.b, s.c, (s.d + t1) % 4294967296, s.e, s.f, s.g⟩

/-- Compression of one 64-byte block into the 8-word chaining state. -/
def compressBlock (hs : List Nat) (block : List Nat) : List Nat :=
  let w := extendSchedule 48 (wordsOfBytes block)
  let s0 : ShaState :=
    ⟨hs.getD 0 0, hs.getD 1 0, hs.getD 2 0, hs.getD 3 0,
     hs.getD 4 0, hs.getD 5 0, hs.getD 6 0, hs.getD 7 0⟩
  let s := (shaK.zip w).foldl shaRound s0
  [(hs.getD 0 0 + s.a) % 4294967296, (hs.getD 1 0 + s.b) % 4294967296,
   (hs.getD 2 0 + s.c) % 4294967296, (hs.getD 3 0 + s.d) % 4294967296,
   (hs.getD 4 0 + s.e) % 4294967296, (hs.getD 5 0 + s.f) % 4294967296,
   (hs.getD 6 0 + s.g) % 4294967296, (hs.getD 7 0 + s.hh) % 4294967296]

/-- Splitting of a byte list into 64-byte blocks. -/
def chunk64 (l : List Nat) : List (List Nat) :=
  if h : l = [] then []
  else l.take 64 :: chunk64 (l.drop 64)
termination_by l.length
decreasing_by
  simp only [List.length_drop]
  have : 0 < l.length := List.length_pos.mpr h
  omega

/-- Merkle-Damgard padding of SHA-256: a 0x80 byte, zeros, and the bit length
of the message as 8 big-endian bytes, to a multiple of 64 bytes. -/
def padMessage (msg : List Nat) : List Nat :=
  let L := msg.length
  msg ++ [0x80] ++ List.replicate ((64 - (L + 9) % 64) % 64) 0 ++ beBytes 8 (8 * L)

/-- The SHA-256 digest (32 bytes) of a byte list. -/
def sha256 (msg : List Nat) : List Nat :=
  let hs := (chunk64 (padMessage msg)).foldl compressBlock shaInitH
  (hs.map (beBytes 4)).flatten

/-- ASCII bytes of the BIP-340 challenge tag. -/
def tagBytes : List Nat :=
  "BIP0340/challenge".toList.map Char.toNat

/-- BIP-340 tagged challenge hash, the embedding of `challengeBIP340`:
SHA256( SHA256(tag) ‖ SHA256(tag) ‖ r as 32 big-endian bytes ‖ pkX ‖ msg )
read as a big-endian integer.  No reduction modulo n happens here; the
caller reduces. -/
def challengeBIP340 (r : Nat) (pkX msg : List Nat) : Nat :=
  let tagHash := sha256 tagBytes
  let rBytes := beBytes 32 r
  let data := rBytes ++ pkX ++ msg
  bytesToNat (sha256 (tagHash ++ tagHash ++ data))

/-- Negation of a point as written inline in the source:
`negEP = (Q.X, P − Q.Y)`.  (Every point the source negates has its
y-coordinate in `[0, P)`, so natural subtraction agrees with `big.Int.Sub`.) -/
def negatePt (q : Affine) : Affine :=
  ⟨q.X, P - q.Y⟩

/-- Standard BIP-340 verification, the embedding of `verify`. -/
def verify (msg sig pkX : List Nat) : Bool :=
  if sig.length = 64 ∧ pkX.length = 32 then
    let r := bytesToNat (sig.take 32)
    let s := bytesToNat (sig.drop 32)
    if P ≤ r ∨ N ≤ s then false
    else
      match liftXEvenY (bytesToNat pkX) with
      | none => false
      | some pk =>
        let e := challengeBIP340 r pkX msg % N
        let sG := mul G s
        let eP := mul pk e
        let R := add sG (negatePt eP)
        if isInfinity R then false
        else (R.Y % 2 == 0) && (R.X == r)
  else false

/-- Adaptor-signature verification, the embedding of `adaptorVerify`. -/
def adaptorVerify (msg sig pkX : List Nat) (T : Affine) : Bool :=
  if sig.length = 64 ∧ pkX.length = 32 then
    let r := bytesToNat (sig.take 32)
    let sPrime := bytesToNat (sig.drop 32)
    if P ≤ r ∨ N ≤ sPrime then false
    else
      match liftXEvenY (bytesToNat pkX) with
      | none => false
      | some pk =>
        if !isOnCurve T then false
        else
          match liftXEvenY r with
          | none => false
          | some R =>
            let Rp := add R T
            let e := challengeBIP340 Rp.X pkX msg % N
            let sG := mul G sPrime
            let eP := mul pk e
            let rhs := add R eP
            if isInfinity sG || isInfinity rhs then false
            else
              let Rstar := add sG (negatePt eP)
              if isInfinity Rstar then false
              else (Rstar.Y % 2 == 0) && (Rstar.X == r)
  else false

/-! Concrete byte buffers used as inputs to witnesses and counterexamples. -/

/-- Thirty-two zero bytes. -/
def zeros32 : List Nat := List.replicate 32 0

/-- Sixty-four zero bytes: the signature with r = 0 and s = 0. -/
def zeros64 : List Nat := List.replicate 64 0

/-- Thirty-two 0xFF bytes, encoding 2^256 - 1. -/
def maxS32 : List Nat := List.replicate 32 255

/-- Signature bytes with r = 1 and s = 0. -/
def sigR1 : List Nat := (List.replicate 31 0 ++ [1]) ++ List.replicate 32 0

/-- Signature bytes with r = 0 and s = 5. -/
def sigS5 : List Nat := zeros32 ++ (List.replicate 31 0 ++ [5])

/-- Signature bytes with r = 0 and s = 3. -/
def sigS3 : List Nat := zeros32 ++ (List.replicate 31 0 ++ [3])

/-! Claim C9.  The source loop of `mul` right-shifts the caller's scalar
object in place until it reaches zero, so the scalar does not keep its value
across the call: the claim fails for every positive scalar.  The second
component of `mulSt` is exactly the value held by the caller's scalar object
when `mul` returns. -/

/-- C9 counterexample: after `mul(G, 5)` the caller's scalar object holds 0,
not its original value 5. -/
theorem mulSt_scalar_not_preserved : (mulSt ⟨0, 0⟩ G 5).2 ≠ 5 := by
  simp [mulSt]

/-- C9 (amended): `mul` consumes its scalar argument: whatever value the
caller passed, the scalar object holds 0 once the loop exits (the claim that
it still holds its original value fails for every positive scalar). -/
theorem mulSt_scalar_zeroed (result addend : Affine) (k : Nat) :
    (mulSt result addend k).2 = 0 := by
  induction k using Nat.strong_induction_on generalizing result addend with
  | _ k ih =>
    rw [mulSt]
    split
    · exact ih _ (Nat.div_lt_self (by assumption) (by omega)) _ _
    · simp; omega

/-! Claim C4.  When the two 32-byte r halves differ as big-endian integers,
`extract` returns the zero scalar and does not fault. -/

/-- C4: for 64-byte inputs whose r halves differ as big-endian integers,
`extract` returns 0. -/
theorem extract_r_mismatch_zero (sig asig : List Nat)
    (h1 : sig.length = 64) (h2 : asig.length = 64)
    (hr : bytesToNat (sig.take 32) ≠ bytesToNat (asig.take 32)) :
    extract sig asig = 0 := by
  simp [extract, h1, h2, hr]

/-- C4 witness at r₁ = 1 versus r₂ = 0. -/
theorem extract_r_mismatch_zero_witness :
    sigR1.length = 64 ∧ zeros64.length = 64 ∧
    bytesToNat (sigR1.take 32) ≠ bytesToNat (zeros64.take 32) ∧
    extract sigR1 zeros64 = 0 :=
  ⟨by decide, by decide, by decide,
    extract_r_mismatch_zero sigR1 zeros64 (by decide) (by decide) (by decide)⟩

/-! Claim C3.  The claimed identity t = (s - s2) mod n fails when a half is
out of scalar range: `extract` performs no reduction modulo n in its
subtraction.  It holds whenever both halves are below n. -/

/-- C3 counterexample: with s = 2^256 - 1 (≥ n) and s2 = 0 on a shared r,
the extracted value is neither (s - s2) mod n, nor does s2 + t reproduce s
modulo n. -/
theorem extract_mod_n_counterexample :
    extract (zeros32 ++ maxS32) zeros64 ≠
      (((2 : Int) ^ 256 - 1) - 0) % (N : Int) ∧
    ((0 : Int) + extract (zeros32 ++ maxS32) zeros64) % (N : Int) ≠
      (2 : Int) ^ 256 - 1 := by
  constructor
  · decide
  · decide

/-- C3 (amended): whenever the two signatures share the same r half and both
s halves are in scalar range (below n), `extract` returns exactly
(s - s2) mod n, and s2 + t reproduces s modulo n. -/
theorem extract_correct_below_n (sig asig : List Nat)
    (h1 : sig.length = 64) (h2 : asig.length = 64)
    (hr : bytesToNat (sig.take 32) = bytesToNat (asig.take 32))
    (hs : bytesToNat (sig.drop 32) < N) (hsp : bytesToNat (asig.drop 32) < N) :
    extract sig asig =
      ((bytesToNat (sig.drop 32) : Int) - (bytesToNat (asig.drop 32) : Int)) % (N : Int) ∧
    ((bytesToNat (asig.drop 32) : Int) + extract sig asig) % (N : Int) =
      (bytesToNat (sig.drop 32) : Int) := by
  simp only [extract, h1, h2, hr, if_true, and_self, ite_not, if_pos rfl]
  simp only [N] at hs hsp ⊢
  split
  · constructor <;> omega
  · constructor <;> omega

/-- C3 witness at r = 0, s = 5, s2 = 3. -/
theorem extract_correct_below_n_witness :
    sigS5.length = 64 ∧ sigS3.length = 64 ∧
    bytesToNat (sigS5.take 32) = bytesToNat (sigS3.take 32) ∧
    bytesToNat (sigS5.drop 32) < N ∧ bytesToNat (sigS3.drop 32) < N ∧
    (extract sigS5 sigS3 =
      ((bytesToNat (sigS5.drop 32) : Int) - (bytesToNat (sigS3.drop 32) : Int)) % (N : Int) ∧
    ((bytesToNat (sigS3.drop 32) : Int) + extract sigS5 sigS3) % (N : Int) =
      (bytesToNat (sigS5.drop 32) : Int)) :=
  ⟨by decide, by decide, by decide, by decide, by decide,
    extract_correct_below_n sigS5 sigS3 (by decide) (by decide) (by decide)
      (by decide) (by decide)⟩

/-! Claim C10.  `extract` can return values outside [0, n): the first branch
returns the unreduced difference, and the second can go negative, in which
case `handleExtract` encodes the absolute value of the result. -/

/-- C10: with s = 2^256 - 1 and s2 = 0 the unreduced difference 2^256 - 1 ≥ n
is returned as-is; swapping the inputs gives the negative value
n - (2^256 - 1), whose absolute value is what `handleExtract` then encodes
into the 32 returned bytes. -/
theorem extract_out_of_range_behavior :
    extract (zeros32 ++ maxS32) zeros64 = (2 : Int) ^ 256 - 1 ∧
    (N : Int) ≤ extract (zeros32 ++ maxS32) zeros64 ∧
    extract zeros64 (zeros32 ++ maxS32) = (N : Int) - ((2 : Int) ^ 256 - 1) ∧
    extract zeros64 (zeros32 ++ maxS32) < 0 ∧
    handleExtractResult zeros64 (zeros32 ++ maxS32) = beBytes 32 (2 ^ 256 - 1 - N) := by
  refine ⟨by decide, by decide, by decide, by decide, by decide⟩

/-! Correctness of the fueled modular exponentiation: with enough fuel it
computes exactly the modular power. -/

/-- The result of `powMod` is always reduced below the modulus. -/
theorem powMod_lt (f b e m : Nat) (hm : 0 < m) : powMod f b e m < m := by
  induction f generalizing b e with
  | zero =>
    rw [powMod]; exact Nat.mod_lt _ hm
  | succ f ih =>
    rw [powMod]
    split
    · exact Nat.mod_lt _ hm
    · split
      · exact Nat.mod_lt _ hm
      · exact ih _ _

/-- With fuel covering the bit length of the exponent, `powMod` agrees with
the mathematical modular power. -/
theorem powMod_eq_pow_mod (f b e m : Nat) (hm : 0 < m) (he : e < 2 ^ f) :
    powMod f b e m = b ^ e % m := by
  induction f generalizing b e with
  | zero =>
    have h0 : e = 0 := by simpa using he
    subst h0
    rw [powMod]
    simp
  | succ f ih =>
    rw [powMod]
    by_cases he0 : e = 0
    · subst he0; simp
    · simp only [he0, if_false]
      have h2 : e / 2 < 2 ^ f := by
        have hp : 2 ^ (f + 1) = 2 * 2 ^ f := by ring
        omega
      have hbb : powMod f (b * b % m) (e / 2) m = b ^ (2 * (e / 2)) % m := by
        rw [ih _ _ h2, ← Nat.pow_mod, two_mul, pow_add, ← mul_pow]
      by_cases hodd : e % 2 = 1
      · simp only [hodd, if_true]
        rw [hbb, Nat.mod_mul_mod, ← pow_succ]
        have he2 : 2 * (e / 2) + 1 = e := by omega
        rw [he2]
      · simp only [hodd, if_false]
        rw [hbb]
        have he2 : 2 * (e / 2) = e := by omega
        rw [he2]

/-! Claim C5.  The x-only lift fails exactly when x is out of field range or
the candidate square root does not square back to c = x³ + 7 mod p; on
success it returns the even-Y representative of a point with the given x,
and never the infinity sentinel. -/

/-- Squaring commutes with the reflection y ↦ m − y modulo m. -/
theorem sub_sq_mod (m y : Nat) (h : y ≤ m) :
    (m - y) * (m - y) % m = y * y % m := by
  have hmz : ((m : Int) ≡ 0 [ZMOD (m : Int)]) := Int.modEq_zero_iff_dvd.mpr dvd_rfl
  have h1 : ((m : Int) - y) ≡ 0 - y [ZMOD (m : Int)] := Int.ModEq.sub hmz (Int.ModEq.refl _)
  have h2 : ((m : Int) - y) * ((m : Int) - y) ≡ (0 - y) * (0 - y) [ZMOD (m : Int)] :=
    Int.ModEq.mul h1 h1
  have h3 : ((0 : Int) - y) * (0 - y) = (y : Int) * y := by ring
  rw [h3] at h2
  have h4 : ((m - y : Nat) : Int) = (m : Int) - y := by omega
  have h5 : (((m - y) * (m - y) : Nat) : Int) % m = ((y * y : Nat) : Int) % m := by
    push_cast
    rw [h4]
    exact h2
  omega

/-- C5: `liftXEvenY x` fails exactly when x ≥ p or the square-root candidate
y = c^((p+1)/4) mod p for c = x³ + 7 mod p has y·y ≢ c (mod p); on success
the returned point has X = x, an even Y in [0, p) with Y·Y ≡ x³ + 7 (mod p),
and is not the infinity sentinel. -/
theorem liftXEvenY_spec (x : Nat) :
    (liftXEvenY x = none ↔
      (P ≤ x ∨
        ((x ^ 3 + 7) % P) ^ SQRT_EXP % P * (((x ^ 3 + 7) % P) ^ SQRT_EXP % P) % P ≠
          (x ^ 3 + 7) % P)) ∧
    ∀ pt, liftXEvenY x = some pt →
      pt.X = x ∧ pt.Y % 2 = 0 ∧ pt.Y < P ∧ pt.Y * pt.Y % P = (x ^ 3 + 7) % P ∧
        isInfinity pt = false := by
  have hPpos : 0 < P := by decide
  have hP2 : P % 2 = 1 := by decide
  have hcc : x * x * x + B = x ^ 3 + 7 := by
    simp only [B]; ring
  set c := (x * x * x + B) % P with hc
  set y := powMod 300 c SQRT_EXP P with hydef
  have hc2 : c = (x ^ 3 + 7) % P := by rw [hc, hcc]
  have hylt : y < P := powMod_lt _ _ _ _ hPpos
  have hpm : y = ((x ^ 3 + 7) % P) ^ SQRT_EXP % P := by
    rw [hydef, powMod_eq_pow_mod _ _ _ _ hPpos (by decide), hc2]
  by_cases hx : P ≤ x
  · have hnone : liftXEvenY x = none := by
      rw [liftXEvenY]; simp [hx]
    refine ⟨⟨fun _ => Or.inl hx, fun _ => hnone⟩, fun pt hpt => absurd (hnone ▸ hpt) (by simp)⟩
  · by_cases hsq : y * y % P = c
    · -- success branch
      have heq : ((x ^ 3 + 7) % P) ^ SQRT_EXP % P * (((x ^ 3 + 7) % P) ^ SQRT_EXP % P) % P =
          (x ^ 3 + 7) % P := by
        rw [← hpm, ← hc2]; exact hsq
      have hsome : liftXEvenY x = some ⟨x, if y % 2 = 1 then P - y else y⟩ := by
        rw [liftXEvenY]
        simp only [hx, if_false, ← hc, ← hydef, hsq, ne_eq, not_true_eq_false, ite_false]
      constructor
      · constructor
        · intro h
          rw [hsome] at h
          exact absurd h (by simp)
        · intro h
          rcases h with h | h
          · exact absurd h hx
          · exact absurd heq h
      · intro pt hpt
        rw [hsome] at hpt
        obtain rfl : pt = ⟨x, if y % 2 = 1 then P - y else y⟩ := (Option.some.inj hpt).symm
        refine ⟨rfl, ?_, ?_, ?_, ?_⟩
        · show (if y % 2 = 1 then P - y else y) % 2 = 0
          by_cases hodd : y % 2 = 1
          · simp only [hodd, if_true]; omega
          · simp only [hodd, if_false]; omega
        · show (if y % 2 = 1 then P - y else y) < P
          by_cases hodd : y % 2 = 1
          · simp only [hodd, if_true]; omega
          · simp only [hodd, if_false]; omega
        · show (if y % 2 = 1 then P - y else y) * (if y % 2 = 1 then P - y else y) % P =
            (x ^ 3 + 7) % P
          by_cases hodd : y % 2 = 1
          · simp only [hodd, if_true]
            rw [sub_sq_mod P y (le_of_lt hylt), hsq, hc2]
          · simp only [hodd, if_false]
            rw [hsq, hc2]
        · show isInfinity ⟨x, if y % 2 = 1 then P - y else y⟩ = false
          by_cases hx0 : x = 0
          · subst hx0
            have hc7 : c = 7 := by rw [hc]; decide
            have hyne : y ≠ 0 := by
              intro h0
              rw [h0, hc7] at hsq
              simp at hsq
            simp only [isInfinity, Bool.and_eq_false_iff, beq_eq_false_iff_ne, ne_eq]
            right
            by_cases hodd : y % 2 = 1
            · simp only [hodd, if_true]; omega
            · simp only [hodd, if_false]; omega
          · simp [isInfinity, hx0]
    · -- non-residue branch
      have hnone : liftXEvenY x = none := by
        rw [liftXEvenY]
        simp only [hx, if_false, ← hc, ← hydef, hsq, ne_eq, not_false_eq_true, ite_true]
      have hrhs : ((x ^ 3 + 7) % P) ^ SQRT_EXP % P * (((x ^ 3 + 7) % P) ^ SQRT_EXP % P) % P ≠
          (x ^ 3 + 7) % P := by
        rw [← hpm, ← hc2]; exact hsq
      exact ⟨⟨fun _ => Or.inr hrhs, fun _ => hnone⟩, fun pt hpt => absurd (hnone ▸ hpt) (by simp)⟩

/-- C5 witness: at x = GX the lift succeeds and returns the generator point
(GX, GY), which satisfies all the success conditions. -/
theorem liftXEvenY_spec_witness :
    (Affine.mk GX GY).X = GX ∧ (Affine.mk GX GY).Y % 2 = 0 ∧ (Affine.mk GX GY).Y < P ∧
      (Affine.mk GX GY).Y * (Affine.mk GX GY).Y % P = (GX ^ 3 + 7) % P ∧
      isInfinity (Affine.mk GX GY) = false :=
  (liftXEvenY_spec GX).2 ⟨GX, GY⟩ (by decide)

/-! Claim C7.  The challenge hash is exactly the BIP-340 tagged hash of
r ‖ pkX ‖ msg, with no reduction modulo n inside the function. -/

/-- C7: for every r representable in 32 bytes, `challengeBIP340 r pkX msg`
is the big-endian integer value of
SHA256( SHA256(tag) ‖ SHA256(tag) ‖ r as 32 big-endian bytes ‖ pkX ‖ msg )
with tag the ASCII bytes of "BIP0340/challenge"; the function performs no
reduction modulo n (the caller reduces). -/
theorem challengeBIP340_tagged_hash (r : Nat) (pkX msg : List Nat)
    (hr : r < 2 ^ 256) :
    challengeBIP340 r pkX msg =
      bytesToNat (sha256
        (sha256 [66, 73, 80, 48, 51, 52, 48, 47, 99, 104, 97, 108, 108, 101, 110, 103, 101] ++
         sha256 [66, 73, 80, 48, 51, 52, 48, 47, 99, 104, 97, 108, 108, 101, 110, 103, 101] ++
         beBytes 32 r ++ pkX ++ msg)) := by
  have htag : tagBytes =
      [66, 73, 80, 48, 51, 52, 48, 47, 99, 104, 97, 108, 108, 101, 110, 103, 101] := by rfl
  rw [challengeBIP340, htag]
  simp [List.append_assoc]

/-- C7 witness at r = 0, empty public key bytes and empty message. -/
theorem challengeBIP340_tagged_hash_witness :
    (0 : Nat) < 2 ^ 256 ∧
    challengeBIP340 0 [] [] =
      bytesToNat (sha256
        (sha256 [66, 73, 80, 48, 51, 52, 48, 47, 99, 104, 97, 108, 108, 101, 110, 103, 101] ++
         sha256 [66, 73, 80, 48, 51, 52, 48, 47, 99, 104, 97, 108, 108, 101, 110, 103, 101] ++
         beBytes 32 0 ++ [] ++ [])) :=
  ⟨by norm_num, challengeBIP340_tagged_hash 0 [] [] (by norm_num)⟩

/-! Claim C8.  Adding an on-curve point to itself takes exactly the same
branch structure as doubling it: both give the infinity sentinel for the
sentinel itself and for y = 0, and the tangent formulas otherwise.  Point
coordinates are field elements in [0, p) in the data model; for y in that
range 2y mod p cannot vanish unless y = 0, because p is odd. -/

/-- C8: for every point satisfying `isOnCurve` whose y-coordinate is a
reduced field element (in [0, p)), including the infinity sentinel and any
point with y = 0, `add p p = double p`. -/
theorem add_self_eq_double (p : Affine) (hc : isOnCurve p = true) (hy : p.Y < P) :
    add p p = double p := by
  have hP2 : P % 2 = 1 := by decide
  by_cases hinf : isInfinity p
  · obtain ⟨hx0, hy0⟩ : p.X = 0 ∧ p.Y = 0 := by
      simpa [isInfinity] using hinf
    rw [add, double]
    simp only [hinf, if_true, Bool.true_or]
    cases p
    simp_all
  · by_cases hy0 : p.Y = 0
    · rw [add, double]
      simp [hinf, hy0]
    · have hsum : (p.Y + p.Y) % P ≠ 0 := by
        intro hz
        have hdvd : P ∣ p.Y + p.Y := Nat.dvd_of_mod_eq_zero hz
        obtain ⟨k, hk⟩ := hdvd
        have h2P : p.Y + p.Y < 2 * P := by omega
        have hkpos : 0 < k := by
          rcases Nat.eq_zero_or_pos k with h | h
          · subst h; omega
          · exact h
        have hk1 : k = 1 := by
          by_contra hk2
          have : 2 ≤ k := by omega
          have : 2 * P ≤ P * k := by
            calc 2 * P = P * 2 := by ring
            _ ≤ P * k := Nat.mul_le_mul_left _ this
          omega
        subst hk1
        omega
      rw [add, double]
      simp only [hinf, if_false, Bool.false_or, beq_self_eq_true, if_true, ite_true]
      have hyb : (p.Y == 0) = false := by simpa using hy0
      have hsb : ((p.Y + p.Y) % P == 0) = false := by simpa using hsum
      simp [hyb, hsb, hy0, hinf]

/-- C8 witness at the generator point. -/
theorem add_self_eq_double_witness :
    isOnCurve G = true ∧ G.Y < P ∧ add G G = double G :=
  ⟨by decide, by decide, add_self_eq_double G (by decide) (by decide)⟩

/-! Claim C1.  Characterization of `verify`: it accepts exactly when the
parsed r and s are in range, the public key lifts, and the recomputed point
R = s·G + (−(e·P)) is finite with even y and x-coordinate r; in every other
case it returns false. -/

/-- Point R = add(mul(G, s), negate(mul(pt, e))) recomputed by `verify`,
with e = challengeBIP340(r, pkX, msg) mod n, r = sig[0:32] and s = sig[32:64]
as big-endian integers. -/
def verifyR (msg sig pkX : List Nat) (pt : Affine) : Affine :=
  add (mul G (bytesToNat (sig.drop 32)))
    (negatePt (mul pt (challengeBIP340 (bytesToNat (sig.take 32)) pkX msg % N)))

/-- C1: for a 64-byte signature and 32-byte public key, `verify` returns true
if and only if r = sig[0:32] < p, s = sig[32:64] < n, pkX lifts to a point,
and the recomputed R = s·G − e·P is not the infinity sentinel, has even
y-coordinate, and has x-coordinate equal to r; otherwise it returns false. -/
theorem verify_characterization (msg sig pkX : List Nat)
    (hsig : sig.length = 64) (hpk : pkX.length = 32) :
    verify msg sig pkX = true ↔
      (bytesToNat (sig.take 32) < P ∧ bytesToNat (sig.drop 32) < N ∧
       ∃ pt, liftXEvenY (bytesToNat pkX) = some pt ∧
         isInfinity (verifyR msg sig pkX pt) = false ∧
         (verifyR msg sig pkX pt).Y % 2 = 0 ∧
         (verifyR msg sig pkX pt).X = bytesToNat (sig.take 32)) := by
  rw [verify]
  simp only [hsig, hpk, and_self, if_true]
  by_cases hrange : P ≤ bytesToNat (sig.take 32) ∨ N ≤ bytesToNat (sig.drop 32)
  · simp only [hrange, if_true]
    constructor
    · intro h
      exact absurd h (by simp)
    · rintro ⟨h1, h2, -⟩
      rcases hrange with h | h <;> omega
  · simp only [hrange, if_false]
    push_neg at hrange
    obtain ⟨hr, hs⟩ := hrange
    cases hlift : liftXEvenY (bytesToNat pkX) with
    | none =>
      constructor
      · intro h
        exact absurd h (by simp)
      · rintro ⟨-, -, pt, hpt, -⟩
        simp at hpt
    | some pk =>
      have hRdef : add (mul G (bytesToNat (sig.drop 32)))
          (negatePt (mul pk (challengeBIP340 (bytesToNat (sig.take 32)) pkX msg % N))) =
          verifyR msg sig pkX pk := rfl
      simp only [hRdef]
      by_cases hinf : isInfinity (verifyR msg sig pkX pk) = true
      · rw [if_pos hinf]
        constructor
        · intro h
          exact absurd h (by simp)
        · rintro ⟨-, -, pt, hpt, hfin, -⟩
          obtain rfl : pk = pt := Option.some.inj hpt
          rw [hinf] at hfin
          exact absurd hfin (by simp)
      · rw [if_neg hinf]
        rw [Bool.and_eq_true, beq_iff_eq, beq_iff_eq]
        constructor
        · rintro ⟨hy, hx⟩
          exact ⟨hr, hs, pk, rfl, by simpa using hinf, hy, hx⟩
        · rintro ⟨-, -, pt, hpt, -, hy, hx⟩
          obtain rfl : pk = pt := Option.some.inj hpt
          exact ⟨hy, hx⟩

/-- C1 witness at the all-zero signature and all-zero public key with the
empty message. -/
theorem verify_characterization_witness :
    zeros64.length = 64 ∧ zeros32.length = 32 ∧
    (verify [] zeros64 zeros32 = true ↔
      (bytesToNat (zeros64.take 32) < P ∧ bytesToNat (zeros64.drop 32) < N ∧
       ∃ pt, liftXEvenY (bytesToNat zeros32) = some pt ∧
         isInfinity (verifyR [] zeros64 zeros32 pt) = false ∧
         (verifyR [] zeros64 zeros32 pt).Y % 2 = 0 ∧
         (verifyR [] zeros64 zeros32 pt).X = bytesToNat (zeros64.take 32))) :=
  ⟨by decide, by decide, verify_characterization [] zeros64 zeros32 (by decide) (by decide)⟩

/-! Primality of the field modulus.  The proof is a Pratt-style certificate
chain through `lucas_primality`, with all modular powers evaluated by the
kernel through `powMod`. -/

/-- Casting `powMod` into `ZMod n`: with fuel `e + 1` the fueled power agrees
with the monoid power of the cast. -/
theorem pow_eq_powMod_cast (n a e : Nat) (hn : 0 < n) :
    ((a : ZMod n)) ^ e = ((powMod (e + 1) a e n : Nat) : ZMod n) := by
  rw [powMod_eq_pow_mod (e + 1) a e n hn
    (lt_of_lt_of_le (Nat.lt_two_pow e) (Nat.pow_le_pow_right (by omega) (by omega)))]
  rw [ZMod.natCast_mod, Nat.cast_pow]

/-- A kernel-checkable sufficient condition for a power in `ZMod n` to be 1. -/
theorem pow_cast_eq_one (n a e : Nat) (hn : 0 < n) (h : powMod (e + 1) a e n = 1 % n) :
    ((a : ZMod n)) ^ e = 1 := by
  rw [pow_eq_powMod_cast n a e hn, h, ZMod.natCast_mod, Nat.cast_one]

/-- A kernel-checkable sufficient condition for a power in `ZMod n` not to be 1. -/
theorem pow_cast_ne_one (n a e : Nat) (hn : 0 < n)
    (h : ¬ powMod (e + 1) a e n % n = 1 % n) :
    ((a : ZMod n)) ^ e ≠ 1 := by
  rw [pow_eq_powMod_cast n a e hn]
  intro hcontr
  rw [show (1 : ZMod n) = ((1 : Nat) : ZMod n) from (Nat.cast_one).symm] at hcontr
  exact h ((ZMod.natCast_eq_natCast_iff' _ _ _).mp hcontr)

/-- Lucas certificate: 1627 is prime (witness 3). -/
theorem prime_cert0 : Nat.Prime 1627 := by
  have h1 : (1627 : Nat) - 1 =
      2 * (3 * (271)) := by norm_num
  apply lucas_primality _ ((3 : Nat) : ZMod 1627)
  · apply pow_cast_eq_one _ _ _ (by norm_num)
    decide
  · intro q hq hdvd
    rw [h1] at hdvd
    have hne : ∀ e : Nat, ¬ powMod (e + 1) 3 e 1627 % 1627 =
        1 % 1627 → ((3 : Nat) : ZMod 1627) ^ e ≠ 1 :=
      fun e h => pow_cast_ne_one _ _ _ (by norm_num) h
    rcases (Nat.Prime.dvd_mul hq).mp hdvd with h | hdvd
    · obtain rfl : q = 2 := (Nat.prime_dvd_prime_iff_eq hq Nat.prime_two).mp
        h
      rw [h1]
      exact hne _ (by decide)
    rcases (Nat.Prime.dvd_mul hq).mp hdvd with h | hdvd
    · obtain rfl : q = 3 := (Nat.prime_dvd_prime_iff_eq hq Nat.prime_three).mp
        h
      rw [h1]
      exact hne _ (by decide)
    obtain rfl : q = 271 := (Nat.prime_dvd_prime_iff_eq hq (by norm_num)).mp
      hdvd
    rw [h1]
    exact hne _ (by decide)

/-- Lucas certificate: 2621 is prime (witness 2). -/
theorem prime_cert1 : Nat.Prime 2621 := by
  have h1 : (2621 : Nat) - 1 =
      2 ^ 2 * (5 * (131)) := by norm_num
  apply lucas_primality _ ((2 : Nat) : ZMod 2621)
  · apply pow_cast_eq_one _ _ _ (by norm_num)
    decide
  · intro q hq hdvd
    rw [h1] at hdvd
    have hne : ∀ e : Nat, ¬ powMod (e + 1) 2 e 2621 % 2621 =
        1 % 2621 → ((2 : Nat) : ZMod 2621) ^ e ≠ 1 :=
      fun e h => pow_cast_ne_one _ _ _ (by norm_num) h
    rcases (Nat.Prime.dvd_mul hq).mp hdvd with h | hdvd
    · obtain rfl : q = 2 := (Nat.prime_dvd_prime_iff_eq hq Nat.prime_two).mp
        (hq.dvd_of_dvd_pow h)
      rw [h1]
      exact hne _ (by decide)
    rcases (Nat.Prime.dvd_mul hq).mp hdvd with h | hdvd
    · obtain rfl : q = 5 := (Nat.prime_dvd_prime_iff_eq hq (by norm_num)).mp
        h
      rw [h1]
      exact hne _ (by decide)
    obtain rfl : q = 131 := (Nat.prime_dvd_prime_iff_eq hq (by norm_num)).mp
      hdvd
    rw [h1]
    exact hne _ (by decide)

/-- Lucas certificate: 2657 is prime (witness 3). -/
theorem prime_cert2 : Nat.Prime 2657 := by
  have h1 : (2657 : Nat) - 1 =
      2 ^ 5 * (83) := by norm_num
  apply lucas_primality _ ((3 : Nat) : ZMod 2657)
  · apply pow_cast_eq_one _ _ _ (by norm_num)
    decide
  · intro q hq hdvd
    rw [h1] at hdvd
    have hne : ∀ e : Nat, ¬ powMod (e + 1) 3 e 2657 % 2657 =
        1 % 2657 → ((3 : Nat) : ZMod 2657) ^ e ≠ 1 :=
      fun e h => pow_cast_ne_one _ _ _ (by norm_num) h
    rcases (Nat.Prime.dvd_mul hq).mp hdvd with h | hdvd
    · obtain rfl : q = 2 := (Nat.prime_dvd_prime_iff_eq hq Nat.prime_two).mp
        (hq.dvd_of_dvd_pow h)
      rw [h1]
      exact hne _ (by decide)
    obtain rfl : q = 83 := (Nat.prime_dvd_prime_iff_eq hq (by norm_num)).mp
      hdvd
    rw [h1]
    exact hne _ (by decide)

/-- Lucas certificate: 4423 is prime (witness 3). -/
theorem prime_cert3 : Nat.Prime 4423 := by
  have h1 : (4423 : Nat) - 1 =
      2 * (3 * (11 * (67))) := by norm_num
  apply lucas_primality _ ((3 : Nat) : ZMod 4423)
  · apply pow_cast_eq_one _ _ _ (by norm_num)
    decide
  · intro q hq hdvd
    rw [h1] at hdvd
    have hne : ∀ e : Nat, ¬ powMod (e + 1) 3 e 4423 % 4423 =
        1 % 4423 → ((3 : Nat) : ZMod 4423) ^ e ≠ 1 :=
      fun e h => pow_cast_ne_one _ _ _ (by norm_num) h
    rcases (Nat.Prime.dvd_mul hq).mp hdvd with h | hdvd
    · obtain rfl : q = 2 := (Nat.prime_dvd_prime_iff_eq hq Nat.prime_two).mp
        h
      rw [h1]
      exact hne _ (by decide)
    rcases (Nat.Prime.dvd_mul hq).mp hdvd with h | hdvd
    · obtain rfl : q = 3 := (Nat.prime_dvd_prime_iff_eq hq Nat.prime_three).mp
        h
      rw [h1]
      exact hne _ (by decide)
    rcases (Nat.Prime.dvd_mul hq).mp hdvd with h | hdvd
    · obtain rfl : q = 11 := (Nat.prime_dvd_prime_iff_eq hq (by norm_num)).mp
        h
      rw [h1]
      exact hne _ (by decide)
    obtain rfl : q = 67 := (Nat.prime_dvd_prime_iff_eq hq (by norm_num)).mp
      hdvd
    rw [h1]
    exact hne _ (by decide)

/-- Lucas certificate: 5323 is prime (witness 5). -/
theorem prime_cert4 : Nat.Prime 5323 := by
  have h1 : (5323 : Nat) - 1 =
      2 * (3 * (887)) := by norm_num
  apply lucas_primality _ ((5 : Nat) : ZMod 5323)
  · apply pow_cast_eq_one _ _ _ (by norm_num)
    decide
  · intro q hq hdvd
    rw [h1] at hdvd
    have hne : ∀ e : Nat, ¬ powMod (e + 1) 5 e 5323 % 5323 =
        1 % 5323 → ((5 : Nat) : ZMod 5323) ^ e ≠ 1 :=
      fun e h => pow_cast_ne_one _ _ _ (by norm_num) h
    rcases (Nat.Prime.dvd_mul hq).mp hdvd with h | hdvd
    · obtain rfl : q = 2 := (Nat.prime_dvd_prime_iff_eq hq Nat.prime_two).mp
        h
      rw [h1]
      exact hne _ (by decide)
    rcases (Nat.Prime.dvd_mul hq).mp hdvd with h | hdvd
    · obtain rfl : q = 3 := (Nat.prime_dvd_prime_iff_eq hq Nat.prime_three).mp
        h
      rw [h1]
      exact hne _ (by decide)
    obtain rfl : q = 887 := (Nat.prime_dvd_prime_iff_eq hq (by norm_num)).mp
      hdvd
    rw [h1]
    exact hne _ (by decide)

/-- Lucas certificate: 7723 is prime (witness 3). -/
theorem prime_cert5 : Nat.Prime 7723 := by
  have h1 : (7723 : Nat) - 1 =
      2 * (3 ^ 3 * (11 * (13))) := by norm_num
  apply lucas_primality _ ((3 : Nat) : ZMod 7723)
  · apply pow_cast_eq_one _ _ _ (by norm_num)
    decide
  · intro q hq hdvd
    rw [h1] at hdvd
    have hne : ∀ e : Nat, ¬ powMod (e + 1) 3 e 7723 % 7723 =
        1 % 7723 → ((3 : Nat) : ZMod 7723) ^ e ≠ 1 :=
      fun e h => pow_cast_ne_one _ _ _ (by norm_num) h
    rcases (Nat.Prime.dvd_mul hq).mp hdvd with h | hdvd
    · obtain rfl : q = 2 := (Nat.prime_dvd_prime_iff_eq hq Nat.prime_two).mp
        h
      rw [h1]
      exact hne _ (by decide)
    rcases (Nat.Prime.dvd_mul hq).mp hdvd with h | hdvd
    · obtain rfl : q = 3 := (Nat.prime_dvd_prime_iff_eq hq Nat.prime_three).mp
        (hq.dvd_of_dvd_pow h)
      rw [h1]
      exact hne _ (by decide)
    rcases (Nat.Prime.dvd_mul hq).mp hdvd with h | hdvd
    · obtain rfl : q = 11 := (Nat.prime_dvd_prime_iff_eq hq (by norm_num)).mp
        h
      rw [h1]
      exact hne _ (by decide)
    obtain rfl : q = 13 := (Nat.prime_dvd_prime_iff_eq hq (by norm_num)).mp
      hdvd
    rw [h1]
    exact hne _ (by decide)

/-- Lucas certificate: 13441 is prime (witness 11). -/
theorem prime_cert6 : Nat.Prime 13441 := by
  have h1 : (13441 : Nat) - 1 =
      2 ^ 7 * (3 * (5 * (7))) := by norm_num
  apply lucas_primality _ ((11 : Nat) : ZMod 13441)
  · apply pow_cast_eq_one _ _ _ (by norm_num)
    decide
  · intro q hq hdvd
    rw [h1] at hdvd
    have hne : ∀ e : Nat, ¬ powMod (e + 1) 11 e 13441 % 13441 =
        1 % 13441 → ((11 : Nat) : ZMod 13441) ^ e ≠ 1 :=
      fun e h => pow_cast_ne_one _ _ _ (by norm_num) h
    rcases (Nat.Prime.dvd_mul hq).mp hdvd with h | hdvd
    · obtain rfl : q = 2 := (Nat.prime_dvd_prime_iff_eq hq Nat.prime_two).mp
        (hq.dvd_of_dvd_pow h)
      rw [h1]
      exact hne _ (by decide)
    rcases (Nat.Prime.dvd_mul hq).mp hdvd with h | hdvd
    · obtain rfl : q = 3 := (Nat.prime_dvd_prime_iff_eq hq Nat.prime_three).mp
        h
      rw [h1]
      exact hne _ (by decide)
    rcases (Nat.Prime.dvd_mul hq).mp hdvd with h | hdvd
    · obtain rfl : q = 5 := (Nat.prime_dvd_prime_iff_eq hq (by norm_num)).mp
        h
      rw [h1]
      exact hne _ (by decide)
    obtain rfl : q = 7 := (Nat.prime_dvd_prime_iff_eq hq (by norm_num)).mp
      hdvd
    rw [h1]
    exact hne _ (by decide)

/-- Lucas certificate: 20113 is prime (witness 10). -/
theorem prime_cert7 : Nat.Prime 20113 := by
  have h1 : (20113 : Nat) - 1 =
      2 ^ 4 * (3 * (419)) := by norm_num
  apply lucas_primality _ ((10 : Nat) : ZMod 20113)
  · apply pow_cast_eq_one _ _ _ (by norm_num)
    decide
  · intro q hq hdvd
    rw [h1] at hdvd
    have hne : ∀ e : Nat, ¬ powMod (e + 1) 10 e 20113 % 20113 =
        1 % 20113 → ((10 : Nat) : ZMod 20113) ^ e ≠ 1 :=
      fun e h => pow_cast_ne_one _ _ _ (by norm_num) h
    rcases (Nat.Prime.dvd_mul hq).mp hdvd with h | hdvd
    · obtain rfl : q = 2 := (Nat.prime_dvd_prime_iff_eq hq Nat.prime_two).mp
        (hq.dvd_of_dvd_pow h)
      rw [h1]
      exact hne _ (by decide)
    rcases (Nat.Prime.dvd_mul hq).mp hdvd with h | hdvd
    · obtain rfl : q = 3 := (Nat.prime_dvd_prime_iff_eq hq Nat.prime_three).mp
        h
      rw [h1]
      exact hne _ (by decide)
    obtain rfl : q = 419 := (Nat.prime_dvd_prime_iff_eq hq (by norm_num)).mp
      hdvd
    rw [h1]
    exact hne _ (by decide)

/-- Lucas certificate: 24809 is prime (witness 6). -/
theorem prime_cert8 : Nat.Prime 24809 := by
  have h1 : (24809 : Nat) - 1 =
      2 ^ 3 * (7 * (443)) := by norm_num
  apply lucas_primality _ ((6 : Nat) : ZMod 24809)
  · apply pow_cast_eq_one _ _ _ (by norm_num)
    decide
  · intro q hq hdvd
    rw [h1] at hdvd
    have hne : ∀ e : Nat, ¬ powMod (e + 1) 6 e 24809 % 24809 =
        1 % 24809 → ((6 : Nat) : ZMod 24809) ^ e ≠ 1 :=
      fun e h => pow_cast_ne_one _ _ _ (by norm_num) h
    rcases (Nat.Prime.dvd_mul hq).mp hdvd with h | hdvd
    · obtain rfl : q = 2 := (Nat.prime_dvd_prime_iff_eq hq Nat.prime_two).mp
        (hq.dvd_of_dvd_pow h)
      rw [h1]
      exact hne _ (by decide)
    rcases (Nat.Prime.dvd_mul hq).mp hdvd with h | hdvd
    · obtain rfl : q = 7 := (Nat.prime_dvd_prime_iff_eq hq (by norm_num)).mp
        h
      rw [h1]
      exact hne _ (by decide)
    obtain rfl : q = 443 := (Nat.prime_dvd_prime_iff_eq hq (by norm_num)).mp
      hdvd
    rw [h1]
    exact hne _ (by decide)

/-- Lucas certificate: 41201 is prime (witness 3). -/
theorem prime_cert9 : Nat.Prime 41201 := by
  have h1 : (41201 : Nat) - 1 =
      2 ^ 4 * (5 ^ 2 * (103)) := by norm_num
  apply lucas_primality _ ((3 : Nat) : ZMod 41201)
  · apply pow_cast_eq_one _ _ _ (by norm_num)
    decide
  · intro q hq hdvd
    rw [h1] at hdvd
    have hne : ∀ e : Nat, ¬ powMod (e + 1) 3 e 41201 % 41201 =
        1 % 41201 → ((3 : Nat) : ZMod 41201) ^ e ≠ 1 :=
      fun e h => pow_cast_ne_one _ _ _ (by norm_num) h
    rcases (Nat.Prime.dvd_mul hq).mp hdvd with h | hdvd
    · obtain rfl : q = 2 := (Nat.prime_dvd_prime_iff_eq hq Nat.prime_two).mp
        (hq.dvd_of_dvd_pow h)
      rw [h1]
      exact hne _ (by decide)
    rcases (Nat.Prime.dvd_mul hq).mp hdvd with h | hdvd
    · obtain rfl : q = 5 := (Nat.prime_dvd_prime_iff_eq hq (by norm_num)).mp
        (hq.dvd_of_dvd_pow h)
      rw [h1]
      exact hne _ (by decide)
    obtain rfl : q = 103 := (Nat.prime_dvd_prime_iff_eq hq (by norm_num)).mp
      hdvd
    rw [h1]
    exact hne _ (by decide)

/-- Lucas certificate: 96557 is prime (witness 2). -/
theorem prime_cert10 : Nat.Prime 96557 := by
  have h1 : (96557 : Nat) - 1 =
      2 ^ 2 * (101 * (239)) := by norm_num
  apply lucas_primality _ ((2 : Nat) : ZMod 96557)
  · apply pow_cast_eq_one _ _ _ (by norm_num)
    decide
  · intro q hq hdvd
    rw [h1] at hdvd
    have hne : ∀ e : Nat, ¬ powMod (e + 1) 2 e 96557 % 96557 =
        1 % 96557 → ((2 : Nat) : ZMod 96557) ^ e ≠ 1 :=
      fun e h => pow_cast_ne_one _ _ _ (by norm_num) h
    rcases (Nat.Prime.dvd_mul hq).mp hdvd with h | hdvd
    · obtain rfl : q = 2 := (Nat.prime_dvd_prime_iff_eq hq Nat.prime_two).mp
        (hq.dvd_of_dvd_pow h)
      rw [h1]
      exact hne _ (by decide)
    rcases (Nat.Prime.dvd_mul hq).mp hdvd with h | hdvd
    · obtain rfl : q = 101 := (Nat.prime_dvd_prime_iff_eq hq (by norm_num)).mp
        h
      rw [h1]
      exact hne _ (by decide)
    obtain rfl : q = 239 := (Nat.prime_dvd_prime_iff_eq hq (by norm_num)).mp
      hdvd
    rw [h1]
    exact hne _ (by decide)

/-- Lucas certificate: 1206781 is prime (witness 10). -/
theorem prime_cert11 : Nat.Prime 1206781 := by
  have h1 : (1206781 : Nat) - 1 =
      2 ^ 2 * (3 * (5 * (20113))) := by norm_num
  apply lucas_primality _ ((10 : Nat) : ZMod 1206781)
  · apply pow_cast_eq_one _ _ _ (by norm_num)
    decide
  · intro q hq hdvd
    rw [h1] at hdvd
    have hne : ∀ e : Nat, ¬ powMod (e + 1) 10 e 1206781 % 1206781 =
        1 % 1206781 → ((10 : Nat) : ZMod 1206781) ^ e ≠ 1 :=
      fun e h => pow_cast_ne_one _ _ _ (by norm_num) h
    rcases (Nat.Prime.dvd_mul hq).mp hdvd with h | hdvd
    · obtain rfl : q = 2 := (Nat.prime_dvd_prime_iff_eq hq Nat.prime_two).mp
        (hq.dvd_of_dvd_pow h)
      rw [h1]
      exact hne _ (by decide)
    rcases (Nat.Prime.dvd_mul hq).mp hdvd with h | hdvd
    · obtain rfl : q = 3 := (Nat.prime_dvd_prime_iff_eq hq Nat.prime_three).mp
        h
      rw [h1]
      exact hne _ (by decide)
    rcases (Nat.Prime.dvd_mul hq).mp hdvd with h | hdvd
    · obtain rfl : q = 5 := (Nat.prime_dvd_prime_iff_eq hq (by norm_num)).mp
        h
      rw [h1]
      exact hne _ (by decide)
    obtain rfl : q = 20113 := (Nat.prime_dvd_prime_iff_eq hq prime_cert7).mp
      hdvd
    rw [h1]
    exact hne _ (by decide)

/-- Lucas certificate: 7240687 is prime (witness 3). -/
theorem prime_cert12 : Nat.Prime 7240687 := by
  have h1 : (7240687 : Nat) - 1 =
      2 * (3 * (1206781)) := by norm_num
  apply lucas_primality _ ((3 : Nat) : ZMod 7240687)
  · apply pow_cast_eq_one _ _ _ (by norm_num)
    decide
  · intro q hq hdvd
    rw [h1] at hdvd
    have hne : ∀ e : Nat, ¬ powMod (e + 1) 3 e 7240687 % 7240687 =
        1 % 7240687 → ((3 : Nat) : ZMod 7240687) ^ e ≠ 1 :=
      fun e h => pow_cast_ne_one _ _ _ (by norm_num) h
    rcases (Nat.Prime.dvd_mul hq).mp hdvd with h | hdvd
    · obtain rfl : q = 2 := (Nat.prime_dvd_prime_iff_eq hq Nat.prime_two).mp
        h
      rw [h1]
      exact hne _ (by decide)
    rcases (Nat.Prime.dvd_mul hq).mp hdvd with h | hdvd
    · obtain rfl : q = 3 := (Nat.prime_dvd_prime_iff_eq hq Nat.prime_three).mp
        h
      rw [h1]
      exact hne _ (by decide)
    obtain rfl : q = 1206781 := (Nat.prime_dvd_prime_iff_eq hq prime_cert11).mp
      hdvd
    rw [h1]
    exact hne _ (by decide)

/-- Lucas certificate: 13331831 is prime (witness 13). -/
theorem prime_cert13 : Nat.Prime 13331831 := by
  have h1 : (13331831 : Nat) - 1 =
      2 * (5 * (971 * (1373))) := by norm_num
  apply lucas_primality _ ((13 : Nat) : ZMod 13331831)
  · apply pow_cast_eq_one _ _ _ (by norm_num)
    decide
  · intro q hq hdvd
    rw [h1] at hdvd
    have hne : ∀ e : Nat, ¬ powMod (e + 1) 13 e 13331831 % 13331831 =
        1 % 13331831 → ((13 : Nat) : ZMod 13331831) ^ e ≠ 1 :=
      fun e h => pow_cast_ne_one _ _ _ (by norm_num) h
    rcases (Nat.Prime.dvd_mul hq).mp hdvd with h | hdvd
    · obtain rfl : q = 2 := (Nat.prime_dvd_prime_iff_eq hq Nat.prime_two).mp
        h
      rw [h1]
      exact hne _ (by decide)
    rcases (Nat.Prime.dvd_mul hq).mp hdvd with h | hdvd
    · obtain rfl : q = 5 := (Nat.prime_dvd_prime_iff_eq hq (by norm_num)).mp
        h
      rw [h1]
      exact hne _ (by decide)
    rcases (Nat.Prime.dvd_mul hq).mp hdvd with h | hdvd
    · obtain rfl : q = 971 := (Nat.prime_dvd_prime_iff_eq hq (by norm_num)).mp
        h
      rw [h1]
      exact hne _ (by decide)
    obtain rfl : q = 1373 := (Nat.prime_dvd_prime_iff_eq hq (by norm_num)).mp
      hdvd
    rw [h1]
    exact hne _ (by decide)

/-- Lucas certificate: 107590001 is prime (witness 3). -/
theorem prime_cert14 : Nat.Prime 107590001 := by
  have h1 : (107590001 : Nat) - 1 =
      2 ^ 4 * (5 ^ 4 * (7 * (29 * (53)))) := by norm_num
  apply lucas_primality _ ((3 : Nat) : ZMod 107590001)
  · apply pow_cast_eq_one _ _ _ (by norm_num)
    decide
  · intro q hq hdvd
    rw [h1] at hdvd
    have hne : ∀ e : Nat, ¬ powMod (e + 1) 3 e 107590001 % 107590001 =
        1 % 107590001 → ((3 : Nat) : ZMod 107590001) ^ e ≠ 1 :=
      fun e h => pow_cast_ne_one _ _ _ (by norm_num) h
    rcases (Nat.Prime.dvd_mul hq).mp hdvd with h | hdvd
    · obtain rfl : q = 2 := (Nat.prime_dvd_prime_iff_eq hq Nat.prime_two).mp
        (hq.dvd_of_dvd_pow h)
      rw [h1]
      exact hne _ (by decide)
    rcases (Nat.Prime.dvd_mul hq).mp hdvd with h | hdvd
    · obtain rfl : q = 5 := (Nat.prime_dvd_prime_iff_eq hq (by norm_num)).mp
        (hq.dvd_of_dvd_pow h)
      rw [h1]
      exact hne _ (by decide)
    rcases (Nat.Prime.dvd_mul hq).mp hdvd with h | hdvd
    · obtain rfl : q = 7 := (Nat.prime_dvd_prime_iff_eq hq (by norm_num)).mp
        h
      rw [h1]
      exact hne _ (by decide)
    rcases (Nat.Prime.dvd_mul hq).mp hdvd with h | hdvd
    · obtain rfl : q = 29 := (Nat.prime_dvd_prime_iff_eq hq (by norm_num)).mp
        h
      rw [h1]
      exact hne _ (by decide)
    obtain rfl : q = 53 := (Nat.prime_dvd_prime_iff_eq hq (by norm_num)).mp
      hdvd
    rw [h1]
    exact hne _ (by decide)

/-- Lucas certificate: 173378833005251801 is prime (witness 6). -/
theorem prime_cert15 : Nat.Prime 173378833005251801 := by
  have h1 : (173378833005251801 : Nat) - 1 =
      2 ^ 3 * (5 ^ 2 * (2621 * (24809 * (13331831)))) := by norm_num
  apply lucas_primality _ ((6 : Nat) : ZMod 173378833005251801)
  · apply pow_cast_eq_one _ _ _ (by norm_num)
    decide
  · intro q hq hdvd
    rw [h1] at hdvd
    have hne : ∀ e : Nat, ¬ powMod (e + 1) 6 e 173378833005251801 % 173378833005251801 =
        1 % 173378833005251801 → ((6 : Nat) : ZMod 173378833005251801) ^ e ≠ 1 :=
      fun e h => pow_cast_ne_one _ _ _ (by norm_num) h
    rcases (Nat.Prime.dvd_mul hq).mp hdvd with h | hdvd
    · obtain rfl : q = 2 := (Nat.prime_dvd_prime_iff_eq hq Nat.prime_two).mp
        (hq.dvd_of_dvd_pow h)
      rw [h1]
      exact hne _ (by decide)
    rcases (Nat.Prime.dvd_mul hq).mp hdvd with h | hdvd
    · obtain rfl : q = 5 := (Nat.prime_dvd_prime_iff_eq hq (by norm_num)).mp
        (hq.dvd_of_dvd_pow h)
      rw [h1]
      exact hne _ (by decide)
    rcases (Nat.Prime.dvd_mul hq).mp hdvd with h | hdvd
    · obtain rfl : q = 2621 := (Nat.prime_dvd_prime_iff_eq hq prime_cert1).mp
        h
      rw [h1]
      exact hne _ (by decide)
    rcases (Nat.Prime.dvd_mul hq).mp hdvd with h | hdvd
    · obtain rfl : q = 24809 := (Nat.prime_dvd_prime_iff_eq hq prime_cert8).mp
        h
      rw [h1]
      exact hne _ (by decide)
    obtain rfl : q = 13331831 := (Nat.prime_dvd_prime_iff_eq hq prime_cert13).mp
      hdvd
    rw [h1]
    exact hne _ (by decide)

/-- Lucas certificate: 22149492674086928081353 is prime (witness 5). -/
theorem prime_cert16 : Nat.Prime 22149492674086928081353 := by
  have h1 : (22149492674086928081353 : Nat) - 1 =
      2 ^ 3 * (3 * (5323 * (173378833005251801))) := by norm_num
  apply lucas_primality _ ((5 : Nat) : ZMod 22149492674086928081353)
  · apply pow_cast_eq_one _ _ _ (by norm_num)
    decide
  · intro q hq hdvd
    rw [h1] at hdvd
    have hne : ∀ e : Nat, ¬ powMod (e + 1) 5 e 22149492674086928081353 % 22149492674086928081353 =
        1 % 22149492674086928081353 → ((5 : Nat) : ZMod 22149492674086928081353) ^ e ≠ 1 :=
      fun e h => pow_cast_ne_one _ _ _ (by norm_num) h
    rcases (Nat.Prime.dvd_mul hq).mp hdvd with h | hdvd
    · obtain rfl : q = 2 := (Nat.prime_dvd_prime_iff_eq hq Nat.prime_two).mp
        (hq.dvd_of_dvd_pow h)
      rw [h1]
      exact hne _ (by decide)
    rcases (Nat.Prime.dvd_mul hq).mp hdvd with h | hdvd
    · obtain rfl : q = 3 := (Nat.prime_dvd_prime_iff_eq hq Nat.prime_three).mp
        h
      rw [h1]
      exact hne _ (by decide)
    rcases (Nat.Prime.dvd_mul hq).mp hdvd with h | hdvd
    · obtain rfl : q = 5323 := (Nat.prime_dvd_prime_iff_eq hq prime_cert4).mp
        h
      rw [h1]
      exact hne _ (by decide)
    obtain rfl : q = 173378833005251801 := (Nat.prime_dvd_prime_iff_eq hq prime_cert15).mp
      hdvd
    rw [h1]
    exact hne _ (by decide)

/-- Lucas certificate: 132896956044521568488119 is prime (witness 6). -/
theorem prime_cert17 : Nat.Prime 132896956044521568488119 := by
  have h1 : (132896956044521568488119 : Nat) - 1 =
      2 * (3 * (22149492674086928081353)) := by norm_num
  apply lucas_primality _ ((6 : Nat) : ZMod 132896956044521568488119)
  · apply pow_cast_eq_one _ _ _ (by norm_num)
    decide
  · intro q hq hdvd
    rw [h1] at hdvd
    have hne : ∀ e : Nat, ¬ powMod (e + 1) 6 e 132896956044521568488119 % 132896956044521568488119 =
        1 % 132896956044521568488119 → ((6 : Nat) : ZMod 132896956044521568488119) ^ e ≠ 1 :=
      fun e h => pow_cast_ne_one _ _ _ (by norm_num) h
    rcases (Nat.Prime.dvd_mul hq).mp hdvd with h | hdvd
    · obtain rfl : q = 2 := (Nat.prime_dvd_prime_iff_eq hq Nat.prime_two).mp
        h
      rw [h1]
      exact hne _ (by decide)
    rcases (Nat.Prime.dvd_mul hq).mp hdvd with h | hdvd
    · obtain rfl : q = 3 := (Nat.prime_dvd_prime_iff_eq hq Nat.prime_three).mp
        h
      rw [h1]
      exact hne _ (by decide)
    obtain rfl : q = 22149492674086928081353 := (Nat.prime_dvd_prime_iff_eq hq prime_cert16).mp
      hdvd
    rw [h1]
    exact hne _ (by decide)

/-- Lucas certificate: 255515944373312847190720520512484175977 is prime (witness 3). -/
theorem prime_cert18 : Nat.Prime 255515944373312847190720520512484175977 := by
  have h1 : (255515944373312847190720520512484175977 : Nat) - 1 =
      2 ^ 3 * (7 ^ 2 * (11 * (1627 * (2657 * (4423 * (41201 * (96557 * (7240687 * (107590001))))))))) := by norm_num
  apply lucas_primality _ ((3 : Nat) : ZMod 255515944373312847190720520512484175977)
  · apply pow_cast_eq_one _ _ _ (by norm_num)
    decide
  · intro q hq hdvd
    rw [h1] at hdvd
    have hne : ∀ e : Nat, ¬ powMod (e + 1) 3 e 255515944373312847190720520512484175977 % 255515944373312847190720520512484175977 =
        1 % 255515944373312847190720520512484175977 → ((3 : Nat) : ZMod 255515944373312847190720520512484175977) ^ e ≠ 1 :=
      fun e h => pow_cast_ne_one _ _ _ (by norm_num) h
    rcases (Nat.Prime.dvd_mul hq).mp hdvd with h | hdvd
    · obtain rfl : q = 2 := (Nat.prime_dvd_prime_iff_eq hq Nat.prime_two).mp
        (hq.dvd_of_dvd_pow h)
      rw [h1]
      exact hne _ (by decide)
    rcases (Nat.Prime.dvd_mul hq).mp hdvd with h | hdvd
    · obtain rfl : q = 7 := (Nat.prime_dvd_prime_iff_eq hq (by norm_num)).mp
        (hq.dvd_of_dvd_pow h)
      rw [h1]
      exact hne _ (by decide)
    rcases (Nat.Prime.dvd_mul hq).mp hdvd with h | hdvd
    · obtain rfl : q = 11 := (Nat.prime_dvd_prime_iff_eq hq (by norm_num)).mp
        h
      rw [h1]
      exact hne _ (by decide)
    rcases (Nat.Prime.dvd_mul hq).mp hdvd with h | hdvd
    · obtain rfl : q = 1627 := (Nat.prime_dvd_prime_iff_eq hq prime_cert0).mp
        h
      rw [h1]
      exact hne _ (by decide)
    rcases (Nat.Prime.dvd_mul hq).mp hdvd with h | hdvd
    · obtain rfl : q = 2657 := (Nat.prime_dvd_prime_iff_eq hq prime_cert2).mp
        h
      rw [h1]
      exact hne _ (by decide)
    rcases (Nat.Prime.dvd_mul hq).mp hdvd with h | hdvd
    · obtain rfl : q = 4423 := (Nat.prime_dvd_prime_iff_eq hq prime_cert3).mp
        h
      rw [h1]
      exact hne _ (by decide)
    rcases (Nat.Prime.dvd_mul hq).mp hdvd with h | hdvd
    · obtain rfl : q = 41201 := (Nat.prime_dvd_prime_iff_eq hq prime_cert9).mp
        h
      rw [h1]
      exact hne _ (by decide)
    rcases (Nat.Prime.dvd_mul hq).mp hdvd with h | hdvd
    · obtain rfl : q = 96557 := (Nat.prime_dvd_prime_iff_eq hq prime_cert10).mp
        h
      rw [h1]
      exact hne _ (by decide)
    rcases (Nat.Prime.dvd_mul hq).mp hdvd with h | hdvd
    · obtain rfl : q = 7240687 := (Nat.prime_dvd_prime_iff_eq hq prime_cert12).mp
        h
      rw [h1]
      exact hne _ (by decide)
    obtain rfl : q = 107590001 := (Nat.prime_dvd_prime_iff_eq hq prime_cert14).mp
      hdvd
    rw [h1]
    exact hne _ (by decide)

/-- Lucas certificate: 205115282021455665897114700593932402728804164701536103180137503955397371 is prime (witness 10). -/
theorem prime_cert19 : Nat.Prime 205115282021455665897114700593932402728804164701536103180137503955397371 := by
  have h1 : (205115282021455665897114700593932402728804164701536103180137503955397371 : Nat) - 1 =
      2 * (3 * (5 * (29 ^ 2 * (31 * (7723 * (132896956044521568488119 * (255515944373312847190720520512484175977))))))) := by norm_num
  apply lucas_primality _ ((10 : Nat) : ZMod 205115282021455665897114700593932402728804164701536103180137503955397371)
  · apply pow_cast_eq_one _ _ _ (by norm_num)
    decide
  · intro q hq hdvd
    rw [h1] at hdvd
    have hne : ∀ e : Nat, ¬ powMod (e + 1) 10 e 205115282021455665897114700593932402728804164701536103180137503955397371 % 205115282021455665897114700593932402728804164701536103180137503955397371 =
        1 % 205115282021455665897114700593932402728804164701536103180137503955397371 → ((10 : Nat) : ZMod 205115282021455665897114700593932402728804164701536103180137503955397371) ^ e ≠ 1 :=
      fun e h => pow_cast_ne_one _ _ _ (by norm_num) h
    rcases (Nat.Prime.dvd_mul hq).mp hdvd with h | hdvd
    · obtain rfl : q = 2 := (Nat.prime_dvd_prime_iff_eq hq Nat.prime_two).mp
        h
      rw [h1]
      exact hne _ (by decide)
    rcases (Nat.Prime.dvd_mul hq).mp hdvd with h | hdvd
    · obtain rfl : q = 3 := (Nat.prime_dvd_prime_iff_eq hq Nat.prime_three).mp
        h
      rw [h1]
      exact hne _ (by decide)
    rcases (Nat.Prime.dvd_mul hq).mp hdvd with h | hdvd
    · obtain rfl : q = 5 := (Nat.prime_dvd_prime_iff_eq hq (by norm_num)).mp
        h
      rw [h1]
      exact hne _ (by decide)
    rcases (Nat.Prime.dvd_mul hq).mp hdvd with h | hdvd
    · obtain rfl : q = 29 := (Nat.prime_dvd_prime_iff_eq hq (by norm_num)).mp
        (hq.dvd_of_dvd_pow h)
      rw [h1]
      exact hne _ (by decide)
    rcases (Nat.Prime.dvd_mul hq).mp hdvd with h | hdvd
    · obtain rfl : q = 31 := (Nat.prime_dvd_prime_iff_eq hq (by norm_num)).mp
        h
      rw [h1]
      exact hne _ (by decide)
    rcases (Nat.Prime.dvd_mul hq).mp hdvd with h | hdvd
    · obtain rfl : q = 7723 := (Nat.prime_dvd_prime_iff_eq hq prime_cert5).mp
        h
      rw [h1]
      exact hne _ (by decide)
    rcases (Nat.Prime.dvd_mul hq).mp hdvd with h | hdvd
    · obtain rfl : q = 132896956044521568488119 := (Nat.prime_dvd_prime_iff_eq hq prime_cert17).mp
        h
      rw [h1]
      exact hne _ (by decide)
    obtain rfl : q = 255515944373312847190720520512484175977 := (Nat.prime_dvd_prime_iff_eq hq prime_cert18).mp
      hdvd
    rw [h1]
    exact hne _ (by decide)

/-- Lucas certificate: 115792089237316195423570985008687907853269984665640564039457584007908834671663 is prime (witness 3). -/
theorem prime_cert20 : Nat.Prime 115792089237316195423570985008687907853269984665640564039457584007908834671663 := by
  have h1 : (115792089237316195423570985008687907853269984665640564039457584007908834671663 : Nat) - 1 =
      2 * (3 * (7 * (13441 * (205115282021455665897114700593932402728804164701536103180137503955397371)))) := by norm_num
  apply lucas_primality _ ((3 : Nat) : ZMod 115792089237316195423570985008687907853269984665640564039457584007908834671663)
  · apply pow_cast_eq_one _ _ _ (by norm_num)
    decide
  · intro q hq hdvd
    rw [h1] at hdvd
    have hne : ∀ e : Nat, ¬ powMod (e + 1) 3 e 115792089237316195423570985008687907853269984665640564039457584007908834671663 % 115792089237316195423570985008687907853269984665640564039457584007908834671663 =
        1 % 115792089237316195423570985008687907853269984665640564039457584007908834671663 → ((3 : Nat) : ZMod 115792089237316195423570985008687907853269984665640564039457584007908834671663) ^ e ≠ 1 :=
      fun e h => pow_cast_ne_one _ _ _ (by norm_num) h
    rcases (Nat.Prime.dvd_mul hq).mp hdvd with h | hdvd
    · obtain rfl : q = 2 := (Nat.prime_dvd_prime_iff_eq hq Nat.prime_two).mp
        h
      rw [h1]
      exact hne _ (by decide)
    rcases (Nat.Prime.dvd_mul hq).mp hdvd with h | hdvd
    · obtain rfl : q = 3 := (Nat.prime_dvd_prime_iff_eq hq Nat.prime_three).mp
        h
      rw [h1]
      exact hne _ (by decide)
    rcases (Nat.Prime.dvd_mul hq).mp hdvd with h | hdvd
    · obtain rfl : q = 7 := (Nat.prime_dvd_prime_iff_eq hq (by norm_num)).mp
        h
      rw [h1]
      exact hne _ (by decide)
    rcases (Nat.Prime.dvd_mul hq).mp hdvd with h | hdvd
    · obtain rfl : q = 13441 := (Nat.prime_dvd_prime_iff_eq hq prime_cert6).mp
        h
      rw [h1]
      exact hne _ (by decide)
    obtain rfl : q = 205115282021455665897114700593932402728804164701536103180137503955397371 := (Nat.prime_dvd_prime_iff_eq hq prime_cert19).mp
      hdvd
    rw [h1]
    exact hne _ (by decide)

/-- The field modulus of the source is prime. -/
theorem P_prime : Nat.Prime P := by
  rw [show P =
    115792089237316195423570985008687907853269984665640564039457584007908834671663 from rfl]
  exact prime_cert20

instance : Fact (Nat.Prime P) := ⟨P_prime⟩

/-! Correctness of the extended Euclid embedding of `ModInverse`, and the
bridges from the Nat-level modular arithmetic into the field `ZMod P`. -/

/-- With enough fuel, the first component of `xgcdAux` is the gcd. -/
theorem xgcdAux_fst (fuel : Nat) : forall (r0 r1 : Nat) (s0 s1 : Int), r1 <= fuel ->
    (xgcdAux fuel r0 r1 s0 s1).1 = Nat.gcd r0 r1 := by
  induction fuel with
  | zero =>
    intro r0 r1 s0 s1 hle
    have h0 : r1 = 0 := by omega
    subst h0
    rw [xgcdAux]
    simp [Nat.gcd_zero_right]
  | succ fuel ih =>
    intro r0 r1 s0 s1 hle
    rw [xgcdAux]
    by_cases h1 : r1 = 0
    · rw [if_pos h1, h1]
      simp [Nat.gcd_zero_right]
    · rw [if_neg h1]
      rw [ih _ _ _ _ (by have := Nat.mod_lt r0 (show 0 < r1 by omega); omega)]
      rw [Nat.gcd_comm r1 (r0 % r1), ← Nat.gcd_rec r1 r0, Nat.gcd_comm r1 r0]

/-- The second component of `xgcdAux` is a Bezout coefficient: the invariant
r ≡ s·g (mod m) is preserved by every step of the loop. -/
theorem xgcdAux_bezout (g m : Nat) (fuel : Nat) : forall (r0 r1 : Nat) (s0 s1 : Int),
    (r0 : Int) ≡ s0 * g [ZMOD (m : Int)] -> (r1 : Int) ≡ s1 * g [ZMOD (m : Int)] ->
    ((xgcdAux fuel r0 r1 s0 s1).1 : Int) ≡ (xgcdAux fuel r0 r1 s0 s1).2 * g
      [ZMOD (m : Int)] := by
  induction fuel with
  | zero =>
    intro r0 r1 s0 s1 h0 h1
    rw [xgcdAux]
    exact h0
  | succ fuel ih =>
    intro r0 r1 s0 s1 h0 h1
    rw [xgcdAux]
    by_cases hz : r1 = 0
    · rw [if_pos hz]
      exact h0
    · rw [if_neg hz]
      apply ih
      · exact h1
      · have hmod : ((r0 % r1 : Nat) : Int) = (r0 : Int) - ((r0 / r1 : Nat) : Int) * (r1 : Int) := by
          have hdm := Nat.div_add_mod r0 r1
          have hdmz : (r1 : Int) * ((r0 / r1 : Nat) : Int) + ((r0 % r1 : Nat) : Int) =
              (r0 : Int) := by exact_mod_cast hdm
          linarith
        rw [hmod]
        have hr : (s0 - ((r0 / r1 : Nat) : Int) * s1) * (g : Int) =
            s0 * g - ((r0 / r1 : Nat) : Int) * (s1 * g) := by ring
        rw [hr]
        exact Int.ModEq.sub h0 (Int.ModEq.mul_left _ h1)

/-- When the arguments are coprime, `modInverse` is a genuine modular
inverse, exactly as `big.Int.ModInverse` guarantees. -/
theorem modInverse_mul (g m : Nat) (hm : 1 < m) (hco : Nat.gcd g m = 1) :
    (g * modInverse g m) % m = 1 % m := by
  have hfst : (xgcdAux (g + m + 2) g m 1 0).1 = 1 := by
    rw [xgcdAux_fst _ _ _ _ _ (by omega)]
    exact hco
  have hbez := xgcdAux_bezout g m (g + m + 2) g m 1 0
    (by rw [one_mul])
    (by
      have : ((m : Nat) : Int) ≡ 0 [ZMOD (m : Int)] := Int.modEq_zero_iff_dvd.mpr dvd_rfl
      rw [zero_mul]
      exact this)
  rw [hfst] at hbez
  have hmz : (m : Int) ≠ 0 := by
    intro hc
    omega
  have hmi : ((modInverse g m : Nat) : Int) = (xgcdAux (g + m + 2) g m 1 0).2 % (m : Int) := by
    rw [modInverse, intMod]
    exact Int.toNat_of_nonneg (Int.emod_nonneg _ hmz)
  have hmodeq : ((g * modInverse g m : Nat) : Int) % (m : Int) = ((1 : Nat) : Int) % (m : Int) := by
    push_cast
    rw [hmi]
    have hsm : (xgcdAux (g + m + 2) g m 1 0).2 % (m : Int) ≡
        (xgcdAux (g + m + 2) g m 1 0).2 [ZMOD (m : Int)] :=
      Int.emod_emod_of_dvd _ dvd_rfl
    have hchain : (g : Int) * ((xgcdAux (g + m + 2) g m 1 0).2 % (m : Int)) ≡
        (1 : Int) [ZMOD (m : Int)] := by
      calc (g : Int) * ((xgcdAux (g + m + 2) g m 1 0).2 % (m : Int))
          ≡ (g : Int) * (xgcdAux (g + m + 2) g m 1 0).2 [ZMOD (m : Int)] :=
            Int.ModEq.mul_left _ hsm
        _ = (xgcdAux (g + m + 2) g m 1 0).2 * g := by ring
        _ ≡ ((1 : Nat) : Int) [ZMOD (m : Int)] := hbez.symm
        _ = (1 : Int) := by norm_num
    exact hchain
  rw [← Int.natCast_mod, ← Int.natCast_mod] at hmodeq
  exact_mod_cast hmodeq

/-- Residues of integers cast into `ZMod P` forget the reduction. -/
theorem intCast_emod_P (a : Int) : (((a % (P : Int)) : Int) : ZMod P) = (a : ZMod P) := by
  have h : ((P : Int) : ZMod P) = 0 := by
    rw [Int.cast_natCast, ZMod.natCast_self]
  conv_rhs => rw [← Int.emod_add_ediv a (P : Int)]
  push_cast [h]
  ring

/-- Casting `intMod` into the field. -/
theorem intMod_cast (a : Int) : ((intMod a P : Nat) : ZMod P) = (a : ZMod P) := by
  have hPz : (P : Int) ≠ 0 := by
    have : (0 : Nat) < P := by decide
    omega
  rw [intMod]
  rw [show (((a % (P : Int)).toNat : Nat) : ZMod P) = (((a % (P : Int)).toNat : Int) : ZMod P)
    from (Int.cast_natCast _).symm]
  rw [Int.toNat_of_nonneg (Int.emod_nonneg a hPz)]
  exact intCast_emod_P a

/-- Casting `subMod` into the field. -/
theorem subMod_cast (a b : Nat) :
    ((subMod a b P : Nat) : ZMod P) = (a : ZMod P) - (b : ZMod P) := by
  rw [subMod, intMod_cast]
  push_cast
  ring

/-- A nonzero natural below P casts to a nonzero field element. -/
theorem natCast_ne_zero_of_lt (a : Nat) (h0 : a ≠ 0) (hlt : a < P) :
    (a : ZMod P) ≠ 0 := by
  intro hc
  have hv := ZMod.val_cast_of_lt hlt
  rw [hc] at hv
  simp at hv
  exact h0 hv.symm

/-- Casting `modInverse` into the field gives the field inverse. -/
theorem modInverse_cast (a : Nat) (ha : (a : ZMod P) ≠ 0) :
    ((modInverse a P : Nat) : ZMod P) = (a : ZMod P)⁻¹ := by
  have hdvd : ¬ (P ∣ a) := by
    intro h
    exact ha ((ZMod.natCast_zmod_eq_zero_iff_dvd a P).mpr h)
  have hco : Nat.gcd a P = 1 := by
    have := (Nat.Prime.coprime_iff_not_dvd P_prime).mpr hdvd
    rw [Nat.coprime_comm] at this
    exact this
  have h1 := modInverse_mul a P P_prime.one_lt hco
  have h2 : ((a * modInverse a P : Nat) : ZMod P) = ((1 : Nat) : ZMod P) :=
    (ZMod.natCast_eq_natCast_iff' _ _ _).mpr h1
  push_cast at h2
  exact eq_inv_of_mul_eq_one_right h2

/-! The curve over `ZMod P`, and the proof that the group operations of the
source preserve the on-curve predicate (claim C6). -/

/-- The secp256k1 Weierstrass curve over the prime field `ZMod P`. -/
def secpW : WeierstrassCurve.Affine (ZMod P) :=
  { a₁ := 0, a₂ := 0, a₃ := 0, a₄ := 0, a₆ := 7 }

/-- The curve equation of `secpW` in the same shape as the source predicate. -/
theorem secpW_equation_iff (x y : ZMod P) :
    secpW.Equation x y ↔ y * y = x * x * x + 7 := by
  rw [WeierstrassCurve.Affine.equation_iff]
  simp only [secpW]
  constructor
  · intro h
    linear_combination h
  · intro h
    linear_combination h

/-- The infinity sentinel satisfies the on-curve predicate. -/
theorem isOnCurve_infinity : isOnCurve ⟨0, 0⟩ = true := by decide

/-- For finite points the Boolean on-curve predicate is the curve equation of
`secpW` on the casts of the coordinates. -/
theorem isOnCurve_iff_equation (p : Affine) (hinf : isInfinity p = false) :
    isOnCurve p = true ↔ secpW.Equation (p.X : ZMod P) (p.Y : ZMod P) := by
  rw [secpW_equation_iff, isOnCurve, hinf]
  simp only [Bool.false_eq_true, if_false, beq_iff_eq]
  rw [← ZMod.natCast_eq_natCast_iff']
  push_cast [ZMod.natCast_mod, B]
  constructor
  · intro h
    linear_combination h
  · intro h
    linear_combination h

/-- Any point whose coordinate casts satisfy the curve equation satisfies the
Boolean on-curve predicate. -/
theorem isOnCurve_of_equation (q : Affine)
    (h : secpW.Equation (q.X : ZMod P) (q.Y : ZMod P)) : isOnCurve q = true := by
  by_cases hi : isInfinity q = true
  · rw [isOnCurve, hi]
    simp
  · rw [isOnCurve_iff_equation q (by simpa using hi)]
    exact h

/-- The output of `subMod` with modulus P is a reduced field element. -/
theorem subMod_lt (a b : Nat) : subMod a b P < P := by
  have hP : (0 : Int) < (P : Int) := by
    have : (0 : Nat) < P := by decide
    omega
  rw [subMod, intMod]
  have := Int.emod_lt_of_pos ((a : Int) - (b : Int)) hP
  omega

/-- The output of `intMod` with modulus P is a reduced field element. -/
theorem intMod_lt (a : Int) : intMod a P < P := by
  have hP : (0 : Int) < (P : Int) := by
    have : (0 : Nat) < P := by decide
    omega
  rw [intMod]
  have := Int.emod_lt_of_pos a hP
  omega

/-- Casts of reduced naturals into `ZMod P` are injective. -/
theorem natCast_inj_of_lt (a b : Nat) (ha : a < P) (hb : b < P)
    (h : (a : ZMod P) = (b : ZMod P)) : a = b := by
  have h1 := ZMod.val_cast_of_lt ha
  rw [h, ZMod.val_cast_of_lt hb] at h1
  omega

/-- Two is invertible in the coordinate field. -/
theorem two_ne_zero_F : (2 : ZMod P) ≠ 0 := by
  have h := natCast_ne_zero_of_lt 2 (by omega) (by decide)
  exact_mod_cast h

/-- Doubling preserves the on-curve predicate and coordinate reduction. -/
theorem double_closure (p : Affine) (hc : isOnCurve p = true)
    (hx : p.X < P) (hy : p.Y < P) :
    isOnCurve (double p) = true ∧ (double p).X < P ∧ (double p).Y < P := by
  have hP0 : (0 : Nat) < P := by decide
  by_cases h0 : (isInfinity p || p.Y == 0) = true
  · have hD : double p = ⟨0, 0⟩ := by
      rw [double, if_pos h0]
    rw [hD]
    exact ⟨isOnCurve_infinity, hP0, hP0⟩
  · have h0p : ¬ isInfinity p = true ∧ ¬ p.Y = 0 := by
      simpa [Bool.or_eq_true, not_or] using h0
    have hinf : isInfinity p = false := Bool.eq_false_iff.mpr h0p.1
    have hy0 : p.Y ≠ 0 := h0p.2
    set sN : Nat := 3 * (p.X * p.X % P) % P * modInverse (2 * p.Y % P) P % P with hsN
    have hD : double p =
        ⟨subMod (sN * sN % P) (2 * p.X) P,
         intMod (((p.X : Int) - (subMod (sN * sN % P) (2 * p.X) P : Nat)) * (sN : Nat) -
           (p.Y : Nat)) P⟩ := by
      rw [double, if_neg h0]
    have hyF : ((p.Y : Nat) : ZMod P) ≠ 0 := natCast_ne_zero_of_lt _ hy0 hy
    have h2y : (2 : ZMod P) * (p.Y : ZMod P) ≠ 0 := mul_ne_zero two_ne_zero_F hyF
    have hnegY : secpW.negY (p.X : ZMod P) (p.Y : ZMod P) = -(p.Y : ZMod P) := by
      simp [secpW, WeierstrassCurve.Affine.negY]
    have hxy : (p.X : ZMod P) = (p.X : ZMod P) →
        (p.Y : ZMod P) ≠ secpW.negY (p.X : ZMod P) (p.Y : ZMod P) := by
      intro _
      rw [hnegY]
      intro hcon
      apply h2y
      rw [two_mul]
      nth_rewrite 2 [hcon]
      ring
    have hEq : secpW.Equation (p.X : ZMod P) (p.Y : ZMod P) :=
      (isOnCurve_iff_equation p hinf).mp hc
    have hinv : ((2 * p.Y % P : Nat) : ZMod P) ≠ 0 := by
      rw [ZMod.natCast_mod]
      push_cast
      exact h2y
    have hs : ((sN : Nat) : ZMod P) =
        secpW.slope (p.X : ZMod P) (p.X : ZMod P) (p.Y : ZMod P) (p.Y : ZMod P) := by
      rw [WeierstrassCurve.Affine.slope_of_Y_ne rfl (hxy rfl)]
      rw [hsN]
      rw [ZMod.natCast_mod, Nat.cast_mul, ZMod.natCast_mod]
      rw [modInverse_cast _ hinv]
      rw [ZMod.natCast_mod]
      push_cast [ZMod.natCast_mod]
      rw [hnegY]
      simp only [secpW]
      rw [div_eq_mul_inv]
      ring_nf
    set L := secpW.slope (p.X : ZMod P) (p.X : ZMod P) (p.Y : ZMod P) (p.Y : ZMod P) with hL
    have hxr : ((subMod (sN * sN % P) (2 * p.X) P : Nat) : ZMod P) =
        secpW.addX (p.X : ZMod P) (p.X : ZMod P) L := by
      rw [subMod_cast, ZMod.natCast_mod, Nat.cast_mul, hs]
      push_cast
      simp only [WeierstrassCurve.Affine.addX, secpW]
      ring
    have hyr : ((intMod (((p.X : Int) - (subMod (sN * sN % P) (2 * p.X) P : Nat)) *
          (sN : Nat) - (p.Y : Nat)) P : Nat) : ZMod P) =
        secpW.addY (p.X : ZMod P) (p.X : ZMod P) (p.Y : ZMod P) L := by
      rw [intMod_cast]
      push_cast
      rw [hxr, hs]
      simp only [WeierstrassCurve.Affine.addY, WeierstrassCurve.Affine.negAddY,
        WeierstrassCurve.Affine.negY, secpW]
      ring
    have hEqAdd := WeierstrassCurve.Affine.equation_add hEq hEq hxy
    rw [← hL, ← hxr, ← hyr] at hEqAdd
    rw [hD]
    exact ⟨isOnCurve_of_equation _ hEqAdd, subMod_lt _ _, intMod_lt _⟩

/-- Point addition preserves the on-curve predicate and coordinate
reduction. -/
theorem add_closure (p q : Affine)
    (hpc : isOnCurve p = true) (hpx : p.X < P) (hpy : p.Y < P)
    (hqc : isOnCurve q = true) (hqx : q.X < P) (hqy : q.Y < P) :
    isOnCurve (add p q) = true ∧ (add p q).X < P ∧ (add p q).Y < P := by
  have hP0 : (0 : Nat) < P := by decide
  by_cases h1 : isInfinity p = true
  · have hD : add p q = q := by rw [add, if_pos h1]
    rw [hD]
    exact ⟨hqc, hqx, hqy⟩
  · by_cases h2 : isInfinity q = true
    · have hD : add p q = p := by rw [add, if_neg h1, if_pos h2]
      rw [hD]
      exact ⟨hpc, hpx, hpy⟩
    · by_cases h3 : (p.X == q.X) = true
      · by_cases h4 : (p.Y == 0 || (p.Y + q.Y) % P == 0) = true
        · have hD : add p q = ⟨0, 0⟩ := by
            rw [add, if_neg h1, if_neg h2, if_pos h3, if_pos h4]
          rw [hD]
          exact ⟨isOnCurve_infinity, hP0, hP0⟩
        · have hD : add p q = double p := by
            rw [add, if_neg h1, if_neg h2, if_pos h3, if_neg h4]
          rw [hD]
          exact double_closure p hpc hpx hpy
      · -- general chord branch
        have hinfp : isInfinity p = false := Bool.eq_false_iff.mpr h1
        have hinfq : isInfinity q = false := Bool.eq_false_iff.mpr h2
        have hne : p.X ≠ q.X := by simpa using h3
        have hxFne : (p.X : ZMod P) ≠ (q.X : ZMod P) := by
          intro hcon
          exact hne (natCast_inj_of_lt _ _ hpx hqx hcon)
        set sN : Nat := subMod q.Y p.Y P * modInverse (subMod q.X p.X P) P % P with hsN
        have hD : add p q =
            ⟨subMod (sN * sN % P) (p.X + q.X) P,
             intMod (((p.X : Int) - (subMod (sN * sN % P) (p.X + q.X) P : Nat)) * (sN : Nat) -
               (p.Y : Nat)) P⟩ := by
          rw [add, if_neg h1, if_neg h2, if_neg h3]
        have hdx : ((subMod q.X p.X P : Nat) : ZMod P) ≠ 0 := by
          rw [subMod_cast]
          exact sub_ne_zero_of_ne (fun hcon => hxFne hcon.symm)
        have hxy : (p.X : ZMod P) = (q.X : ZMod P) →
            (p.Y : ZMod P) ≠ secpW.negY (q.X : ZMod P) (q.Y : ZMod P) :=
          fun hcon => absurd hcon hxFne
        have hEq1 : secpW.Equation (p.X : ZMod P) (p.Y : ZMod P) :=
          (isOnCurve_iff_equation p hinfp).mp hpc
        have hEq2 : secpW.Equation (q.X : ZMod P) (q.Y : ZMod P) :=
          (isOnCurve_iff_equation q hinfq).mp hqc
        have hs : ((sN : Nat) : ZMod P) =
            secpW.slope (p.X : ZMod P) (q.X : ZMod P) (p.Y : ZMod P) (q.Y : ZMod P) := by
          rw [WeierstrassCurve.Affine.slope_of_X_ne hxFne]
          rw [hsN]
          rw [ZMod.natCast_mod, Nat.cast_mul]
          rw [modInverse_cast _ hdx]
          rw [subMod_cast, subMod_cast]
          rw [div_eq_mul_inv]
          rw [show ((p.X : ZMod P) - (q.X : ZMod P)) = -((q.X : ZMod P) - (p.X : ZMod P))
            from by ring]
          rw [show ((p.Y : ZMod P) - (q.Y : ZMod P)) = -((q.Y : ZMod P) - (p.Y : ZMod P))
            from by ring]
          rw [inv_neg]
          ring
        set L := secpW.slope (p.X : ZMod P) (q.X : ZMod P) (p.Y : ZMod P) (q.Y : ZMod P)
          with hL
        have hxr : ((subMod (sN * sN % P) (p.X + q.X) P : Nat) : ZMod P) =
            secpW.addX (p.X : ZMod P) (q.X : ZMod P) L := by
          rw [subMod_cast, ZMod.natCast_mod, Nat.cast_mul, hs]
          push_cast
          simp only [WeierstrassCurve.Affine.addX, secpW]
          ring
        have hyr : ((intMod (((p.X : Int) - (subMod (sN * sN % P) (p.X + q.X) P : Nat)) *
              (sN : Nat) - (p.Y : Nat)) P : Nat) : ZMod P) =
            secpW.addY (p.X : ZMod P) (q.X : ZMod P) (p.Y : ZMod P) L := by
          rw [intMod_cast]
          push_cast
          rw [hxr, hs]
          simp only [WeierstrassCurve.Affine.addY, WeierstrassCurve.Affine.negAddY,
            WeierstrassCurve.Affine.negY, secpW]
          ring
        have hEqAdd := WeierstrassCurve.Affine.equation_add hEq1 hEq2 hxy
        rw [← hL, ← hxr, ← hyr] at hEqAdd
        rw [hD]
        exact ⟨isOnCurve_of_equation _ hEqAdd, subMod_lt _ _, intMod_lt _⟩

/-- The double-and-add loop preserves the on-curve predicate and coordinate
reduction of both loop variables. -/
theorem mulSt_closure (k : Nat) : forall r a : Affine,
    isOnCurve r = true -> r.X < P -> r.Y < P ->
    isOnCurve a = true -> a.X < P -> a.Y < P ->
    isOnCurve (mulSt r a k).1 = true ∧ (mulSt r a k).1.X < P ∧ (mulSt r a k).1.Y < P := by
  induction k using Nat.strong_induction_on with
  | _ k ih =>
    intro r a hr hrx hry ha hax hay
    rw [mulSt]
    split
    · have hrec := ih (k / 2) (Nat.div_lt_self (by assumption) (by omega))
      obtain ⟨hda, hdax, hday⟩ := double_closure a ha hax hay
      by_cases hb : k % 2 = 1
      · rw [if_pos hb]
        obtain ⟨hra, hrax, hray⟩ := add_closure r a hr hrx hry ha hax hay
        exact hrec _ _ hra hrax hray hda hdax hday
      · rw [if_neg hb]
        exact hrec _ _ hr hrx hry hda hdax hday
    · exact ⟨hr, hrx, hry⟩

/-- C6: scalar multiplication preserves the on-curve predicate: for every
point p with reduced field-element coordinates satisfying `isOnCurve`
(including the Infinity sentinel) and every scalar k, `mul p k` satisfies
`isOnCurve`; `mul p 0` is the Infinity sentinel; `add` and `double` likewise
map on-curve points to on-curve points; and in particular `mul G k` is
on-curve for every k (so for every k in [1, n-1]). -/
theorem mul_preserves_isOnCurve (p q : Affine) (k : Nat)
    (hp : isOnCurve p = true) (hpx : p.X < P) (hpy : p.Y < P)
    (hq : isOnCurve q = true) (hqx : q.X < P) (hqy : q.Y < P) :
    isOnCurve (mul p k) = true ∧ mul p 0 = ⟨0, 0⟩ ∧
    isOnCurve (add p q) = true ∧ isOnCurve (double p) = true ∧
    isOnCurve (mul G k) = true := by
  have hG : isOnCurve G = true := by decide
  have hGx : G.X < P := by decide
  have hGy : G.Y < P := by decide
  have h0c : isOnCurve (⟨0, 0⟩ : Affine) = true := isOnCurve_infinity
  have h0lt : (0 : Nat) < P := by decide
  refine ⟨(mulSt_closure k ⟨0, 0⟩ p h0c h0lt h0lt hp hpx hpy).1, ?_,
    (add_closure p q hp hpx hpy hq hqx hqy).1,
    (double_closure p hp hpx hpy).1,
    (mulSt_closure k ⟨0, 0⟩ G h0c h0lt h0lt hG hGx hGy).1⟩
  rw [mul, mulSt]
  simp

/-- C6 witness at p = q = G and k = 5. -/
theorem mul_preserves_isOnCurve_witness :
    isOnCurve G = true ∧ G.X < P ∧ G.Y < P ∧
    (isOnCurve (mul G 5) = true ∧ mul G 0 = ⟨0, 0⟩ ∧
     isOnCurve (add G G) = true ∧ isOnCurve (double G) = true ∧
     isOnCurve (mul G 5) = true) :=
  ⟨by decide, by decide, by decide,
    mul_preserves_isOnCurve G G 5 (by decide) (by decide) (by decide)
      (by decide) (by decide) (by decide)⟩

end Schnorr
